import Mathlib

/-!
Verification development for the AI Value Computation routine
(`logic/system/ai_value_computation.py`): a shallow embedding of
`compute_ai_value` and its helpers (`_get_candidates`,
`_serialize_candidates`, `_get_result_columns`, `_apply_fallback`,
`_call_openai`, `_map_result_fields`) together with theorems settling the
frozen claims about the routine.

Modelling conventions:
* Python values are the inductive `PyVal`.  Python floats are modelled as
  the exact rational value their decimal literal denotes (IEEE rounding is
  not modelled); the float infinities get their own constructor since the
  fallback strategies use them as defaults.  `Decimal` values are tagged
  separately (`vdec`) so that "exact decimal, not binary float" is visible
  in the type of the result.
* Mutation of the target row is modelled by returning the ordered list of
  `setattr` writes performed; an exception in flight is an
  `Option PyErr` paired with the writes already performed.  The source
  performs `setattr` only on the target row, so the write list is the
  complete mutation footprint of a call.
* SQLAlchemy mapper introspection is abstracted by a `Schema` value giving
  the scalar column names and the to-one relationship names of the
  candidate model, and by the list of column names of the request row.
* The OpenAI round trip is abstracted by its outcome: either an exception
  (`Except.error`) covering transport errors and malformed JSON, or the
  parsed JSON value of the response body.
* String helpers are written by structural recursion over `List Char`
  (with fuel where needed) so the kernel can evaluate them.
-/

set_option maxRecDepth 10000

namespace AiValue

/-- Python exception kinds that the modelled code can raise. -/
inductive PyErr where
  | typeError
  | valueError
  | indexError
  | overflowError
  | invalidOperation
  | attributeError
  | externalError
deriving DecidableEq

/-- Python runtime values reachable in the modelled code.  `vdec` is
`decimal.Decimal`, `vinf` the float infinities, `vdecInf` the Decimal
infinities, `obj` an ORM entity with its attribute dictionary. -/
inductive PyVal where
  | none
  | vbool (b : Bool)
  | vint (n : Int)
  | vfloat (q : ℚ)
  | vinf (pos : Bool)
  | vdec (q : ℚ)
  | vdecInf (pos : Bool)
  | vstr (s : String)
  | vlist (xs : List PyVal)
  | obj (attrs : List (String × PyVal))

/-- A Python dict with string keys (insertion ordered, unique keys). -/
abbrev Dict := List (String × PyVal)

/-- `chStartsWith l p`: `l` starts with `p` (cf. `str.startswith`). -/
def chStartsWith : List Char → List Char → Bool
  | _, [] => true
  | [], _ :: _ => false
  | a :: as, b :: bs => a == b && chStartsWith as bs

/-- Python `s.startswith(p)`. -/
def pyStartsWith (s p : String) : Bool := chStartsWith s.data p.data

/-- `sub` occurs as a contiguous sublist of the second argument. -/
def chContainsSub (sub : List Char) : List Char → Bool
  | [] => sub.isEmpty
  | c :: cs => chStartsWith (c :: cs) sub || chContainsSub sub cs

/-- Python `sub in s` on strings. -/
def strContainsB (s sub : String) : Bool := chContainsSub sub.data s.data

/-- Python `s.endswith(suf)`. -/
def strEndsWith (s suf : String) : Bool :=
  chStartsWith s.data.reverse suf.data.reverse

/-- Python `s[n:]` as character drop. -/
def strDropN (s : String) (n : Nat) : String := String.mk (s.data.drop n)

/-- Split on every non-overlapping occurrence of `sep` (fuelled so that it
is structurally recursive; callers pass fuel `≥ length + 1`).
Matches Python `str.split(sep)` for non-empty `sep`. -/
def chSplitF (sep : List Char) : Nat → List Char → List (List Char)
  | _, [] => [[]]
  | 0, l => [l]
  | Nat.succ fuel, c :: cs =>
    if chStartsWith (c :: cs) sep && !sep.isEmpty then
      [] :: chSplitF sep fuel (List.drop sep.length (c :: cs))
    else
      match chSplitF sep fuel cs with
      | [] => [[c]]
      | g :: gs => (c :: g) :: gs

/-- Python `s.split(sep)` for non-empty `sep`. -/
def strSplitOn (s sep : String) : List String :=
  (chSplitF sep.data (s.data.length + 1) s.data).map String.mk

/-- Interleave `sep` between the groups (cf. `sep.join`). -/
def chIntercalate (sep : List Char) : List (List Char) → List Char
  | [] => []
  | [x] => x
  | x :: y :: rest => x ++ sep ++ chIntercalate sep (y :: rest)

/-- Python `s.replace(pat, rep)`: replaces every non-overlapping
occurrence, left to right (equivalently `rep.join(s.split(pat))`). -/
def strReplaceAll (s pat rep : String) : String :=
  if pat.data.isEmpty then s
  else String.mk (chIntercalate rep.data (chSplitF pat.data (s.data.length + 1) s.data))

/-- First-match association lookup: Python `d.get(k)` (keys unique). -/
def dictGet : Dict → String → Option PyVal
  | [], _ => Option.none
  | (k0, v0) :: rest, k => if k0 == k then some v0 else dictGet rest k

/-- Python `k in d`. -/
def dictContains (d : Dict) (k : String) : Bool := (dictGet d k).isSome

/-- Python `d[k] = v`: overwrite in place keeping position, else append. -/
def dictSet : Dict → String → PyVal → Dict
  | [], k, v => [(k, v)]
  | (k0, v0) :: rest, k, v =>
    if k0 == k then (k, v) :: rest else (k0, v0) :: dictSet rest k v

/-- Python `getattr(o, name, default)` for the attribute dictionaries of
modelled entities (non-entities have none of the modelled attributes). -/
def getattrD : PyVal → String → PyVal → PyVal
  | .obj attrs, name, dflt => (dictGet attrs name).getD dflt
  | _, _, dflt => dflt

/-- Python `hasattr(o, name)` for modelled attributes. -/
def hasattrB : PyVal → String → Bool
  | .obj attrs, name => dictContains attrs name
  | _, _ => false

/-- Python truthiness (`bool(v)`); ORM entities are always truthy. -/
def truthyB : PyVal → Bool
  | .none => false
  | .vbool b => b
  | .vint n => n != 0
  | .vfloat q => q != 0
  | .vinf _ => true
  | .vdec q => q != 0
  | .vdecInf _ => true
  | .vstr s => !s.data.isEmpty
  | .vlist xs => !xs.isEmpty
  | .obj _ => true

/-- `v is None`. -/
def isNoneV : PyVal → Bool
  | .none => true
  | _ => false

/-- `isinstance(v, list)`. -/
def isListV : PyVal → Bool
  | .vlist _ => true
  | _ => false

/-- Numeric comparison domain: rationals extended with the two float
infinities, as a linear order. -/
abbrev NumE := WithBot (WithTop ℚ)

/-- Finite numeric value as a `NumE`. -/
def nfin (q : ℚ) : NumE := ((q : WithTop ℚ) : WithBot (WithTop ℚ))

/-- Signed infinity as a `NumE`. -/
def ninf (pos : Bool) : NumE :=
  if pos then ((⊤ : WithTop ℚ) : WithBot (WithTop ℚ)) else (⊥ : NumE)

/-- The numeric reading Python's comparison operators give a value
(bools count as 0/1; Decimal compares numerically with int/float). -/
def asNum : PyVal → Option NumE
  | .vbool b => some (nfin (if b then 1 else 0))
  | .vint n => some (nfin (n : ℚ))
  | .vfloat q => some (nfin q)
  | .vinf p => some (ninf p)
  | .vdec q => some (nfin q)
  | .vdecInf p => some (ninf p)
  | _ => Option.none

/-- Lexicographic order on character lists (Python string `<`). -/
def chLtB : List Char → List Char → Bool
  | [], [] => false
  | [], _ :: _ => true
  | _ :: _, [] => false
  | a :: as, b :: bs => decide (a < b) || (a == b && chLtB as bs)

/-- Python `a < b`: numbers compare numerically, strings
lexicographically, any other mix raises `TypeError` (NaN is not
modelled). -/
def pyLt (a b : PyVal) : Except PyErr Bool :=
  match asNum a, asNum b with
  | some x, some y => .ok (decide (x < y))
  | _, _ =>
    match a, b with
    | .vstr s, .vstr t => .ok (chLtB s.data t.data)
    | _, _ => .error .typeError

/-- Least `k ≤ 30` with `den ∣ 10^k`, if any. -/
def pow10Exp (den : Nat) : Option Nat :=
  (List.range 31).find? (fun k => 10 ^ k % den == 0)

/-- Python `str()` of a float, modelled for decimally representable
rationals (`9.5 ↦ "9.5"`, `12 ↦ "12.0"`); the exact rendering of other
rationals is immaterial to the claims. -/
def floatRepr (q : ℚ) : String :=
  match pow10Exp q.den with
  | some k =>
    if k == 0 then toString q.num ++ ".0"
    else
      let m := q.num.natAbs * (10 ^ k / q.den)
      let s := toString m
      let s := if s.data.length ≤ k then
          String.mk (List.replicate (k + 1 - s.data.length) '0') ++ s
        else s
      let ip := String.mk (s.data.take (s.data.length - k))
      let fp := String.mk (s.data.drop (s.data.length - k))
      (if q.num < 0 then "-" else "") ++ ip ++ "." ++ fp
  | Option.none => toString q.num ++ "/" ++ toString q.den

/-- Python `str(v)` for the scalar values the audit strings interpolate;
the rendering of containers is abstracted (no claim depends on it). -/
def pyStr : PyVal → String
  | .none => "None"
  | .vbool b => if b then "True" else "False"
  | .vint n => toString n
  | .vfloat q => floatRepr q
  | .vinf p => if p then "inf" else "-inf"
  | .vdec q => floatRepr q
  | .vdecInf p => if p then "Infinity" else "-Infinity"
  | .vstr s => s
  | .vlist _ => "[...]"
  | .obj _ => "<object>"

/-- Comma-join of rendered fragments. -/
def joinComma : List String → String
  | [] => ""
  | [s] => s
  | s :: t :: rest => s ++ ", " ++ joinComma (t :: rest)

mutual
/-- `json.dumps` of a modelled value, up to whitespace; values that
`json.dumps` would reject are rendered anyway — the claims quantify over
serializable records. -/
def jsonOfVal : PyVal → String
  | .none => "null"
  | .vbool b => if b then "true" else "false"
  | .vint n => toString n
  | .vfloat q => floatRepr q
  | .vinf p => if p then "Infinity" else "-Infinity"
  | .vdec q => floatRepr q
  | .vdecInf p => if p then "Infinity" else "-Infinity"
  | .vstr s => "\x22" ++ s ++ "\x22"
  | .vlist xs => "[" ++ joinComma (jsonOfList xs) ++ "]"
  | .obj kvs => "\x7b" ++ joinComma (jsonOfKVs kvs) ++ "\x7d"

/-- Rendered elements of a JSON array. -/
def jsonOfList : List PyVal → List String
  | [] => []
  | x :: xs => jsonOfVal x :: jsonOfList xs

/-- Rendered members of a JSON object. -/
def jsonOfKVs : List (String × PyVal) → List String
  | [] => []
  | (k, v) :: kvs => ("\x22" ++ k ++ "\x22: " ++ jsonOfVal v) :: jsonOfKVs kvs
end

/-- Loop of Python `min(iterable, key=key)`: keep the first element whose
key is strictly smaller than the current best's key. -/
def pyMinByAux (key : Dict → PyVal) : Dict → List Dict → Except PyErr Dict
  | best, [] => .ok best
  | best, x :: xs =>
    match pyLt (key x) (key best) with
    | .error e => .error e
    | .ok true => pyMinByAux key x xs
    | .ok false => pyMinByAux key best xs

/-- Python `min(candidates, key=key)`. -/
def pyMinBy (key : Dict → PyVal) : List Dict → Except PyErr Dict
  | [] => .error .valueError
  | c :: cs => pyMinByAux key c cs

/-- Loop of Python `max(iterable, key=key)`: replace the best only when
the new key is strictly greater, so ties keep the earlier element. -/
def pyMaxByAux (key : Dict → PyVal) : Dict → List Dict → Except PyErr Dict
  | best, [] => .ok best
  | best, x :: xs =>
    match pyLt (key best) (key x) with
    | .error e => .error e
    | .ok true => pyMaxByAux key x xs
    | .ok false => pyMaxByAux key best xs

/-- Python `max(candidates, key=key)`. -/
def pyMaxBy (key : Dict → PyVal) : List Dict → Except PyErr Dict
  | [] => .error .valueError
  | c :: cs => pyMaxByAux key c cs

/-- The traversal loop of `_get_candidates`: for each path segment,
`hasattr` failure or a `None` value short-circuits (the caller then
returns the empty sequence). -/
def navigatePath : PyVal → List String → Option PyVal
  | current, [] => some current
  | current, part :: parts =>
    if hasattrB current part then
      let nxt := getattrD current part .none
      if isNoneV nxt then Option.none else navigatePath nxt parts
    else Option.none

/-- `_get_candidates`: navigate the dotted relationship path; a failed
navigation yields `[]`, a final list is returned as-is, any other final
value is wrapped as a singleton when truthy, else `[]`. -/
def getCandidates (row : PyVal) (candidatesPath : String) : List PyVal :=
  match navigatePath row (strSplitOn candidatesPath ".") with
  | Option.none => []
  | some current =>
    match current with
    | .vlist xs => xs
    | v => if truthyB v then [v] else []

/-- Abstraction of the SQLAlchemy mapper of the candidate model: its
scalar column names and its relationship names (`_serialize_candidates`
reads both off the first candidate's class). -/
structure Schema where
  scalarColumns : List String
  relationships : List String

/-- The fixed attribute names `_serialize_candidates` pulls from a to-one
related entity. -/
def interestingRelAttrs : List String := ["name", "region", "code", "status"]

/-- Serialization of one candidate: every scalar column (Decimal
converted to float), then for each truthy non-list related object the
interesting attributes under a `rel_attr` composite key. -/
def serializeOne (schema : Schema) (candidate : PyVal) : Dict :=
  let d := schema.scalarColumns.foldl (fun d colName =>
    let value := getattrD candidate colName .none
    let value := match value with
      | .vdec q => PyVal.vfloat q
      | .vdecInf p => PyVal.vinf p
      | v => v
    dictSet d colName value) []
  schema.relationships.foldl (fun d rel =>
    let relatedObj := getattrD candidate rel .none
    if truthyB relatedObj && !isListV relatedObj then
      interestingRelAttrs.foldl (fun d attr =>
        if hasattrB relatedObj attr then
          dictSet d (rel ++ "_" ++ attr) (getattrD relatedObj attr .none)
        else d) d
    else d) d

/-- `_serialize_candidates` (the mapper introspection is the `schema`). -/
def serializeCandidates (schema : Schema) (candidateList : List PyVal) : List Dict :=
  if candidateList.isEmpty then []
  else candidateList.map (serializeOne schema)

/-- `_get_result_columns`: keep the `chosen_`-prefixed column names and
map each to `col_name.replace('chosen_', '')` (note: Python `replace`
substitutes every occurrence, not only the prefix). -/
def getResultColumns (rowColumns : List String) : List (String × String) :=
  rowColumns.filterMap (fun colName =>
    if pyStartsWith colName "chosen_" then
      some (colName, strReplaceAll colName "chosen_" "")
    else Option.none)

/-- Value resolution of `_map_result_fields`: exact field name, else the
`_price`/`_cost` suffix swaps; a present-but-`None` value stays `None`
(and is then skipped), matching the source's early `in` test. -/
def resolveValue (chosen : Dict) (targetField : String) : PyVal :=
  if dictContains chosen targetField then
    (dictGet chosen targetField).getD .none
  else if dictContains chosen (strReplaceAll targetField "_price" "_cost") then
    (dictGet chosen (strReplaceAll targetField "_price" "_cost")).getD .none
  else if dictContains chosen (strReplaceAll targetField "_cost" "_price") then
    (dictGet chosen (strReplaceAll targetField "_cost" "_price")).getD .none
  else .none

/-- `isinstance(value, (int, float))` (bools are ints in Python; the
float infinities are floats; Decimal is neither). -/
def isPyNumber : PyVal → Bool
  | .vbool _ => true
  | .vint _ => true
  | .vfloat _ => true
  | .vinf _ => true
  | _ => false

/-- Python `int(value)` on a number: truncation toward zero; infinities
raise `OverflowError`. -/
def pyIntOf : PyVal → Except PyErr Int
  | .vbool b => .ok (if b then 1 else 0)
  | .vint n => .ok n
  | .vfloat q => .ok (Int.tdiv q.num (q.den : Int))
  | .vinf _ => .error .overflowError
  | _ => .error .typeError

/-- Python `Decimal(str(value))` on a number: floats are modelled as the
exact rational of their literal, whose `str` round-trips, so the Decimal
carries the same rational; `str(True)`/`str(False)` are not valid Decimal
literals and raise `InvalidOperation`. -/
def pyDecimalOfStr : PyVal → Except PyErr PyVal
  | .vbool _ => .error .invalidOperation
  | .vint n => .ok (.vdec (n : ℚ))
  | .vfloat q => .ok (.vdec q)
  | .vinf p => .ok (.vdecInf p)
  | _ => .error .typeError

/-- `'_id' in result_col or result_col.endswith('_id')`. -/
def idCond (resultCol : String) : Bool :=
  strContainsB resultCol "_id" || strEndsWith resultCol "_id"

/-- `'_price' in result_col or '_cost' in result_col or '_amount' in result_col`. -/
def moneyCond (resultCol : String) : Bool :=
  strContainsB resultCol "_price" || strContainsB resultCol "_cost" ||
    strContainsB resultCol "_amount"

/-- The coercion cascade of `_map_result_fields` for a resolved value. -/
def coerceValue (resultCol : String) (value : PyVal) : Except PyErr PyVal :=
  if isPyNumber value then
    if idCond resultCol then
      match pyIntOf value with
      | .ok n => .ok (.vint n)
      | .error e => .error e
    else if moneyCond resultCol then pyDecimalOfStr value
    else .ok value
  else .ok value

/-- `_map_result_fields`: for each result column resolve a value from the
chosen candidate, skip unresolved (`None`) ones, coerce and `setattr` the
rest in order; a coercion exception keeps the writes already performed. -/
def mapResultFields (chosen : Dict) :
    List (String × String) → List (String × PyVal) × Option PyErr
  | [] => ([], Option.none)
  | (resultCol, targetField) :: rest =>
    let value := resolveValue chosen targetField
    if isNoneV value then mapResultFields chosen rest
    else
      match coerceValue resultCol value with
      | .error e => ([], some e)
      | .ok v2 =>
        let (ws, e) := mapResultFields chosen rest
        ((resultCol, v2) :: ws, e)

/-- The dict `_apply_fallback` serializes into `row.request`. -/
def fallbackRequestVal (candidates : List Dict) (strategy : String) : PyVal :=
  .obj [("candidates", .vlist (candidates.map PyVal.obj)),
        ("strategy", .vstr strategy)]

/-- The dict `_call_openai` serializes into `row.request`. -/
def openaiRequestVal (worldConditions : String) (candidates : List Dict)
    (optimizeFor : String) : PyVal :=
  .obj [("world_conditions", .vstr worldConditions),
        ("candidates", .vlist (candidates.map PyVal.obj)),
        ("optimize_for", .vstr optimizeFor),
        ("model", .vstr "gpt-4o-2024-08-06")]

/-- Strategy dispatch of `_apply_fallback` on a non-empty candidate list:
the chosen candidate together with the reason string. -/
def fallbackSelect (candidates : List Dict) (strategy : String) :
    Except PyErr (Dict × String) :=
  if strategy == "first" then
    .ok (candidates.headD [], "Fallback: No API key. Selected first candidate")
  else if pyStartsWith strategy "min:" then
    let field := strDropN strategy 4
    match pyMinBy (fun c => (dictGet c field).getD (.vinf true)) candidates with
    | .error e => .error e
    | .ok chosen =>
      .ok (chosen, "Fallback: No API key. Selected minimum " ++ field ++ " (" ++
        pyStr ((dictGet chosen field).getD .none) ++ ")")
  else if pyStartsWith strategy "max:" then
    let field := strDropN strategy 4
    match pyMaxBy (fun c => (dictGet c field).getD (.vinf false)) candidates with
    | .error e => .error e
    | .ok chosen =>
      .ok (chosen, "Fallback: No API key. Selected maximum " ++ field ++ " (" ++
        pyStr ((dictGet chosen field).getD .none) ++ ")")
  else
    .ok (candidates.headD [], "Fallback: Unknown strategy \x27" ++ strategy ++ "\x27, used first")

/-- `_apply_fallback`: empty candidates record only a failure reason;
otherwise select, map the chosen candidate's fields, then set `reason`
and `request`.  A selection or mapping exception propagates (there is no
handler around the fallback call sites). -/
def applyFallback (candidates : List Dict) (resultColumns : List (String × String))
    (fallbackStrategy : String) : List (String × PyVal) × Option PyErr :=
  if candidates.isEmpty then
    ([("reason", .vstr "Fallback failed: No candidates available")], Option.none)
  else
    match fallbackSelect candidates fallbackStrategy with
    | .error e => ([], some e)
    | .ok (chosen, reason) =>
      match mapResultFields chosen resultColumns with
      | (ws, some e) => (ws, some e)
      | (ws, Option.none) =>
        (ws ++ [("reason", .vstr reason),
                ("request", .vstr (jsonOfVal (fallbackRequestVal candidates fallbackStrategy)))],
         Option.none)

/-- Python list indexing (`candidates[i]` with an int): in-range and
negative-wrap indices succeed, anything else raises `IndexError`. -/
def pyIndexInt (candidates : List Dict) (n : Int) : Except PyErr Dict :=
  if 0 ≤ n ∧ n < (candidates.length : Int) then .ok (candidates.getD n.toNat [])
  else if -(candidates.length : Int) ≤ n ∧ n < 0 then
    .ok (candidates.getD (n + candidates.length).toNat [])
  else .error .indexError

/-- `candidates[chosen_index]`: ints (and bools) index, anything else
raises `TypeError`. -/
def pyIndex (candidates : List Dict) : PyVal → Except PyErr Dict
  | .vint n => pyIndexInt candidates n
  | .vbool b => pyIndexInt candidates (if b then 1 else 0)
  | _ => .error .typeError

/-- `ai_reason[:100]` in the selection log line: slicing requires a
sequence. -/
def pySliceOk : PyVal → Except PyErr Unit
  | .vstr _ => .ok ()
  | .vlist _ => .ok ()
  | _ => .error .typeError

/-- `_call_openai` given the outcome of the HTTP round trip plus
`json.loads` (`Except.error` = any exception up to and including JSON
parsing; `Except.ok` = the parsed response value).  Non-dict responses
fail at `.get` (`AttributeError`); `chosen_index` defaults to `0` and
`reason` to `'No reason provided'`; an out-of-range index is replaced by
`0` with an annotated reason (the source's f-string interpolates the
already-reassigned index, hence always `0`); then the chosen candidate's
fields are mapped and `reason`/`request` are set. -/
def callOpenai (response : Except Unit PyVal) (candidates : List Dict)
    (resultColumns : List (String × String)) (optimizeFor : String)
    (worldConditions : String) : List (String × PyVal) × Option PyErr :=
  match response with
  | .error _ => ([], some .externalError)
  | .ok responseVal =>
    match responseVal with
    | .obj responseData =>
      let chosenIndex := (dictGet responseData "chosen_index").getD (.vint 0)
      let aiReason := (dictGet responseData "reason").getD (.vstr "No reason provided")
      match pyLt chosenIndex (.vint 0) with
      | .error e => ([], some e)
      | .ok isNeg =>
        match pyLt chosenIndex (.vint (candidates.length : Int)) with
        | .error e => ([], some e)
        | .ok isLtLen =>
          let invalid := isNeg || !isLtLen
          let chosenIndex2 := if invalid then PyVal.vint 0 else chosenIndex
          let aiReason2 := if invalid then
              PyVal.vstr ("AI selection invalid (index " ++ pyStr chosenIndex2 ++
                "), defaulted to first. Original reason: " ++ pyStr aiReason)
            else aiReason
          match pyIndex candidates chosenIndex2 with
          | .error e => ([], some e)
          | .ok chosen =>
            match pySliceOk aiReason2 with
            | .error e => ([], some e)
            | .ok _ =>
              match mapResultFields chosen resultColumns with
              | (ws, some e) => (ws, some e)
              | (ws, Option.none) =>
                (ws ++ [("reason", aiReason2),
                        ("request", .vstr (jsonOfVal (openaiRequestVal worldConditions candidates optimizeFor)))],
                 Option.none)
    | _ => ([], some .attributeError)

/-- `compute_ai_value`.  Inputs that are process state or I/O in the
source are explicit: `hasApiKey` is the truthiness of the environment
credential, `response` the external call outcome, `worldConditions` the
result of the (never-raising) YAML test-context loader.  The result is
the ordered list of `setattr` writes to the target row paired with the
exception escaping to the caller, if any. -/
def compute_ai_value (hasApiKey : Bool) (response : Except Unit PyVal)
    (rowAttrs : Dict) (rowColumns : List String) (schema : Schema)
    (candidatesPath : String) (optimizeFor : String) (fallback : String)
    (worldConditions : String) : List (String × PyVal) × Option PyErr :=
  let candidateList := getCandidates (.obj rowAttrs) candidatesPath
  if candidateList.isEmpty then
    ([("reason", .vstr ("Error: No candidates available at " ++ candidatesPath))], Option.none)
  else
    let serialized := serializeCandidates schema candidateList
    let resultColumns := getResultColumns rowColumns
    if !hasApiKey then applyFallback serialized resultColumns fallback
    else
      match callOpenai response serialized resultColumns optimizeFor worldConditions with
      | (ws, Option.none) => (ws, Option.none)
      | (ws, some _) =>
        let (ws2, e2) := applyFallback serialized resultColumns fallback
        (ws ++ ws2, e2)

/-- The writes of a call that touch `chosen_*` fields. -/
def chosenWrites (writes : List (String × PyVal)) : List (String × PyVal) :=
  writes.filter (fun w => pyStartsWith w.1 "chosen_")

/-- Replay the `setattr` writes on the row's attribute dict. -/
def applyWrites (row : Dict) (writes : List (String × PyVal)) : Dict :=
  writes.foldl (fun d w => dictSet d w.1 w.2) row

/-- Substring containment, as a proposition on the character data. -/
def strContains (s sub : String) : Prop :=
  ∃ a b, s.data = a ++ (sub.data ++ b)

/-- The numeric key the `min:` fallback compares for a candidate: the
strategy field's value, a missing field counting as `+inf`, read as an
extended rational. -/
def minKeyN (strategy : String) (c : Dict) : NumE :=
  (asNum ((dictGet c (strDropN strategy 4)).getD (.vinf true))).getD ⊥

/-- The numeric key the `max:` fallback compares, a missing field
counting as `-inf`. -/
def maxKeyN (strategy : String) (c : Dict) : NumE :=
  (asNum ((dictGet c (strDropN strategy 4)).getD (.vinf false))).getD ⊥

/-- Safety of the fallback selection: for the ordered strategies, every
present value of the strategy field must be numeric (Python would raise
`TypeError` comparing anything else against the infinite default). -/
def selectionSafe (candidates : List Dict) (strategy : String) : Prop :=
  (pyStartsWith strategy "min:" = true ∨ pyStartsWith strategy "max:" = true) →
  ∀ c ∈ candidates, ∀ v,
    dictGet c (strDropN strategy 4) = some v → (asNum v).isSome

/-- Safety of the field mapper: no candidate's mapping raises (rules out
`int(inf)` and `Decimal(str(bool))` coercions). -/
def mappingClean (candidates : List Dict)
    (resultColumns : List (String × String)) : Prop :=
  ∀ c ∈ candidates, (mapResultFields c resultColumns).2 = Option.none


/-! ### Helper lemmas -/

/-- A numeric key read back from `asNum`, defaulting below everything. -/
def keyNOf (key : Dict → PyVal) (c : Dict) : NumE := (asNum (key c)).getD ⊥

lemma asNum_eq_keyNOf (key : Dict → PyVal) (c : Dict)
    (h : (asNum (key c)).isSome) : asNum (key c) = some (keyNOf key c) := by
  obtain ⟨a, ha⟩ := Option.isSome_iff_exists.mp h
  simp [keyNOf, ha]

lemma pyLt_of_asNum (a b : PyVal) (x y : NumE) (ha : asNum a = some x)
    (hb : asNum b = some y) : pyLt a b = .ok (decide (x < y)) := by
  simp [pyLt, ha, hb]

/-- `pyLt` on two Python ints decides the integer comparison. -/
lemma pyLt_vint (a b : Int) : pyLt (.vint a) (.vint b) = .ok (decide (a < b)) := by
  simp only [pyLt, asNum]
  congr 1
  rw [decide_eq_decide]
  simp only [nfin, WithBot.coe_lt_coe, WithTop.coe_lt_coe]
  exact Int.cast_lt

/-- Python `min(…, key=…)` returns a member of the list. -/
lemma pyMinByAux_mem (key : Dict → PyVal) :
    ∀ (xs : List Dict) (best c : Dict),
      pyMinByAux key best xs = .ok c → c ∈ best :: xs := by
  intro xs
  induction xs with
  | nil =>
    intro best c h
    simp only [pyMinByAux] at h
    cases h
    simp
  | cons x xs ih =>
    intro best c h
    simp only [pyMinByAux] at h
    cases hpl : pyLt (key x) (key best) with
    | error e => rw [hpl] at h; cases h
    | ok b =>
      rw [hpl] at h
      cases b with
      | true =>
        have := ih x c h
        simp only [List.mem_cons] at this ⊢
        tauto
      | false =>
        have := ih best c h
        simp only [List.mem_cons] at this ⊢
        tauto

/-- Python `max(…, key=…)` returns a member of the list. -/
lemma pyMaxByAux_mem (key : Dict → PyVal) :
    ∀ (xs : List Dict) (best c : Dict),
      pyMaxByAux key best xs = .ok c → c ∈ best :: xs := by
  intro xs
  induction xs with
  | nil =>
    intro best c h
    simp only [pyMaxByAux] at h
    cases h
    simp
  | cons x xs ih =>
    intro best c h
    simp only [pyMaxByAux] at h
    cases hpl : pyLt (key best) (key x) with
    | error e => rw [hpl] at h; cases h
    | ok b =>
      rw [hpl] at h
      cases b with
      | true =>
        have := ih x c h
        simp only [List.mem_cons] at this ⊢
        tauto
      | false =>
        have := ih best c h
        simp only [List.mem_cons] at this ⊢
        tauto

/-- Characterization of the `min` loop when every key is numeric: it
returns the element at the first index achieving the minimal key (ties
keep the earliest, a strictly smaller later key wins). -/
lemma pyMinByAux_spec (key : Dict → PyVal) :
    ∀ (xs : List Dict) (best : Dict),
      (∀ c ∈ best :: xs, (asNum (key c)).isSome) →
      ∃ i, i < (best :: xs).length ∧
        pyMinByAux key best xs = .ok ((best :: xs).getD i []) ∧
        (∀ j, j < (best :: xs).length →
          keyNOf key ((best :: xs).getD i []) ≤ keyNOf key ((best :: xs).getD j [])) ∧
        (∀ j, j < i →
          keyNOf key ((best :: xs).getD i []) < keyNOf key ((best :: xs).getD j [])) := by
  intro xs
  induction xs with
  | nil =>
    intro best h
    refine ⟨0, by simp, rfl, ?_, ?_⟩
    · intro j hj
      have hj0 : j = 0 := by
        simp only [List.length_cons, List.length_nil] at hj
        omega
      subst hj0
      exact le_refl _
    · intro j hj
      exact absurd hj (Nat.not_lt_zero j)
  | cons x xs ih =>
    intro best h
    have hx : (asNum (key x)).isSome := h x (by simp)
    have hb : (asNum (key best)).isSome := h best (by simp)
    have hlt : pyLt (key x) (key best)
        = .ok (decide (keyNOf key x < keyNOf key best)) :=
      pyLt_of_asNum _ _ _ _ (asNum_eq_keyNOf key x hx) (asNum_eq_keyNOf key best hb)
    by_cases hcmp : keyNOf key x < keyNOf key best
    · have step : pyMinByAux key best (x :: xs) = pyMinByAux key x xs := by
        simp [pyMinByAux, hlt, hcmp]
      obtain ⟨i, hi, heq, hmin, hstrict⟩ :=
        ih x (by intro c hc; apply h; simp only [List.mem_cons] at hc ⊢; tauto)
      refine ⟨i + 1, ?_, ?_, ?_, ?_⟩
      · simp only [List.length_cons] at hi ⊢; omega
      · simp only [List.getD_cons_succ]
        rw [step]; exact heq
      · intro j hj
        simp only [List.getD_cons_succ]
        cases j with
        | zero =>
          simp only [List.getD_cons_zero]
          exact le_trans (by simpa using hmin 0 (by simp)) (le_of_lt hcmp)
        | succ j' =>
          simp only [List.getD_cons_succ]
          refine hmin j' ?_
          simp only [List.length_cons] at hj ⊢; omega
      · intro j hj
        simp only [List.getD_cons_succ]
        cases j with
        | zero =>
          simp only [List.getD_cons_zero]
          exact lt_of_le_of_lt (by simpa using hmin 0 (by simp)) hcmp
        | succ j' =>
          simp only [List.getD_cons_succ]
          exact hstrict j' (Nat.lt_of_succ_lt_succ hj)
    · have step : pyMinByAux key best (x :: xs) = pyMinByAux key best xs := by
        simp [pyMinByAux, hlt, hcmp]
      have hle : keyNOf key best ≤ keyNOf key x := not_lt.mp hcmp
      obtain ⟨i, hi, heq, hmin, hstrict⟩ :=
        ih best (by intro c hc; apply h; simp only [List.mem_cons] at hc ⊢; tauto)
      cases i with
      | zero =>
        refine ⟨0, by simp, ?_, ?_, ?_⟩
        · simp only [List.getD_cons_zero] at heq ⊢
          rw [step]; exact heq
        · intro j hj
          simp only [List.getD_cons_zero]
          cases j with
          | zero =>
            simp only [List.getD_cons_zero]
            exact le_refl _
          | succ j' =>
            simp only [List.getD_cons_succ]
            cases j' with
            | zero =>
              simp only [List.getD_cons_zero]
              exact hle
            | succ j'' =>
              simp only [List.getD_cons_succ]
              have hm := hmin (j'' + 1)
                (by simp only [List.length_cons] at hj ⊢; omega)
              simp only [List.getD_cons_succ, List.getD_cons_zero] at hm
              exact hm
        · intro j hj
          exact absurd hj (Nat.not_lt_zero j)
      | succ k =>
        refine ⟨k + 2, ?_, ?_, ?_, ?_⟩
        · simp only [List.length_cons] at hi ⊢; omega
        · simp only [List.getD_cons_succ]
          rw [step]
          simp only [List.getD_cons_succ] at heq
          exact heq
        · intro j hj
          simp only [List.getD_cons_succ]
          cases j with
          | zero =>
            simp only [List.getD_cons_zero]
            have hm := hmin 0 (by simp)
            simp only [List.getD_cons_succ, List.getD_cons_zero] at hm
            exact hm
          | succ j' =>
            simp only [List.getD_cons_succ]
            cases j' with
            | zero =>
              simp only [List.getD_cons_zero]
              have hm := hmin 0 (by simp)
              simp only [List.getD_cons_succ, List.getD_cons_zero] at hm
              exact le_trans hm hle
            | succ j'' =>
              simp only [List.getD_cons_succ]
              have hm := hmin (j'' + 1)
                (by simp only [List.length_cons] at hj ⊢; omega)
              simp only [List.getD_cons_succ] at hm
              exact hm
        · intro j hj
          simp only [List.getD_cons_succ]
          cases j with
          | zero =>
            simp only [List.getD_cons_zero]
            have hs := hstrict 0 (Nat.succ_pos k)
            simp only [List.getD_cons_succ, List.getD_cons_zero] at hs
            exact hs
          | succ j' =>
            simp only [List.getD_cons_succ]
            cases j' with
            | zero =>
              simp only [List.getD_cons_zero]
              have hs := hstrict 0 (Nat.succ_pos k)
              simp only [List.getD_cons_succ, List.getD_cons_zero] at hs
              exact lt_of_lt_of_le hs hle
            | succ j'' =>
              simp only [List.getD_cons_succ]
              have hs := hstrict (j'' + 1) (by omega)
              simp only [List.getD_cons_succ] at hs
              exact hs

/-- Characterization of the `max` loop when every key is numeric: it
returns the element at the first index achieving the maximal key. -/
lemma pyMaxByAux_spec (key : Dict → PyVal) :
    ∀ (xs : List Dict) (best : Dict),
      (∀ c ∈ best :: xs, (asNum (key c)).isSome) →
      ∃ i, i < (best :: xs).length ∧
        pyMaxByAux key best xs = .ok ((best :: xs).getD i []) ∧
        (∀ j, j < (best :: xs).length →
          keyNOf key ((best :: xs).getD j []) ≤ keyNOf key ((best :: xs).getD i [])) ∧
        (∀ j, j < i →
          keyNOf key ((best :: xs).getD j []) < keyNOf key ((best :: xs).getD i [])) := by
  intro xs
  induction xs with
  | nil =>
    intro best h
    refine ⟨0, by simp, rfl, ?_, ?_⟩
    · intro j hj
      have hj0 : j = 0 := by
        simp only [List.length_cons, List.length_nil] at hj
        omega
      subst hj0
      exact le_refl _
    · intro j hj
      exact absurd hj (Nat.not_lt_zero j)
  | cons x xs ih =>
    intro best h
    have hx : (asNum (key x)).isSome := h x (by simp)
    have hb : (asNum (key best)).isSome := h best (by simp)
    have hlt : pyLt (key best) (key x)
        = .ok (decide (keyNOf key best < keyNOf key x)) :=
      pyLt_of_asNum _ _ _ _ (asNum_eq_keyNOf key best hb) (asNum_eq_keyNOf key x hx)
    by_cases hcmp : keyNOf key best < keyNOf key x
    · have step : pyMaxByAux key best (x :: xs) = pyMaxByAux key x xs := by
        simp [pyMaxByAux, hlt, hcmp]
      obtain ⟨i, hi, heq, hmax, hstrict⟩ :=
        ih x (by intro c hc; apply h; simp only [List.mem_cons] at hc ⊢; tauto)
      refine ⟨i + 1, ?_, ?_, ?_, ?_⟩
      · simp only [List.length_cons] at hi ⊢; omega
      · simp only [List.getD_cons_succ]
        rw [step]; exact heq
      · intro j hj
        simp only [List.getD_cons_succ]
        cases j with
        | zero =>
          simp only [List.getD_cons_zero]
          exact le_trans (le_of_lt hcmp) (by simpa using hmax 0 (by simp))
        | succ j' =>
          simp only [List.getD_cons_succ]
          refine hmax j' ?_
          simp only [List.length_cons] at hj ⊢; omega
      · intro j hj
        simp only [List.getD_cons_succ]
        cases j with
        | zero =>
          simp only [List.getD_cons_zero]
          exact lt_of_lt_of_le hcmp (by simpa using hmax 0 (by simp))
        | succ j' =>
          simp only [List.getD_cons_succ]
          exact hstrict j' (Nat.lt_of_succ_lt_succ hj)
    · have step : pyMaxByAux key best (x :: xs) = pyMaxByAux key best xs := by
        simp [pyMaxByAux, hlt, hcmp]
      have hle : keyNOf key x ≤ keyNOf key best := not_lt.mp hcmp
      obtain ⟨i, hi, heq, hmax, hstrict⟩ :=
        ih best (by intro c hc; apply h; simp only [List.mem_cons] at hc ⊢; tauto)
      cases i with
      | zero =>
        refine ⟨0, by simp, ?_, ?_, ?_⟩
        · simp only [List.getD_cons_zero] at heq ⊢
          rw [step]; exact heq
        · intro j hj
          simp only [List.getD_cons_zero]
          cases j with
          | zero =>
            simp only [List.getD_cons_zero]
            exact le_refl _
          | succ j' =>
            simp only [List.getD_cons_succ]
            cases j' with
            | zero =>
              simp only [List.getD_cons_zero]
              exact hle
            | succ j'' =>
              simp only [List.getD_cons_succ]
              have hm := hmax (j'' + 1)
                (by simp only [List.length_cons] at hj ⊢; omega)
              simp only [List.getD_cons_succ, List.getD_cons_zero] at hm
              exact hm
        · intro j hj
          exact absurd hj (Nat.not_lt_zero j)
      | succ k =>
        refine ⟨k + 2, ?_, ?_, ?_, ?_⟩
        · simp only [List.length_cons] at hi ⊢; omega
        · simp only [List.getD_cons_succ]
          rw [step]
          simp only [List.getD_cons_succ] at heq
          exact heq
        · intro j hj
          simp only [List.getD_cons_succ]
          cases j with
          | zero =>
            simp only [List.getD_cons_zero]
            have hm := hmax 0 (by simp)
            simp only [List.getD_cons_succ, List.getD_cons_zero] at hm
            exact hm
          | succ j' =>
            simp only [List.getD_cons_succ]
            cases j' with
            | zero =>
              simp only [List.getD_cons_zero]
              have hm := hmax 0 (by simp)
              simp only [List.getD_cons_succ, List.getD_cons_zero] at hm
              exact le_trans hle hm
            | succ j'' =>
              simp only [List.getD_cons_succ]
              have hm := hmax (j'' + 1)
                (by simp only [List.length_cons] at hj ⊢; omega)
              simp only [List.getD_cons_succ] at hm
              exact hm
        · intro j hj
          simp only [List.getD_cons_succ]
          cases j with
          | zero =>
            simp only [List.getD_cons_zero]
            have hs := hstrict 0 (Nat.succ_pos k)
            simp only [List.getD_cons_succ, List.getD_cons_zero] at hs
            exact hs
          | succ j' =>
            simp only [List.getD_cons_succ]
            cases j' with
            | zero =>
              simp only [List.getD_cons_zero]
              have hs := hstrict 0 (Nat.succ_pos k)
              simp only [List.getD_cons_succ, List.getD_cons_zero] at hs
              exact lt_of_le_of_lt hle hs
            | succ j'' =>
              simp only [List.getD_cons_succ]
              have hs := hstrict (j'' + 1) (by omega)
              simp only [List.getD_cons_succ] at hs
              exact hs

/-- A list element fetched by an in-bounds `getD` is a member. -/
lemma getD_mem_of_lt {α : Type} (l : List α) (d : α) (i : Nat)
    (h : i < l.length) : l.getD i d ∈ l := by
  rw [List.getD_eq_getElem l d h]
  exact List.getElem_mem h

/-- In-range indexing returns a member of the list. -/
lemma pyIndexInt_mem (cands : List Dict) (n : Int) (c : Dict)
    (h : pyIndexInt cands n = .ok c) : c ∈ cands := by
  simp only [pyIndexInt] at h
  by_cases h1 : 0 ≤ n ∧ n < (cands.length : Int)
  · rw [if_pos h1] at h
    cases h
    exact getD_mem_of_lt _ _ _ (by omega)
  · rw [if_neg h1] at h
    by_cases h2 : -(cands.length : Int) ≤ n ∧ n < 0
    · rw [if_pos h2] at h
      cases h
      exact getD_mem_of_lt _ _ _ (by omega)
    · rw [if_neg h2] at h
      cases h

/-- `candidates[chosen_index]` returns a member of the list. -/
lemma pyIndex_mem (cands : List Dict) (v : PyVal) (c : Dict)
    (h : pyIndex cands v = .ok c) : c ∈ cands := by
  cases v with
  | vint n => exact pyIndexInt_mem cands n c h
  | vbool b => exact pyIndexInt_mem cands _ c h
  | none => cases h
  | vfloat q => cases h
  | vinf p => cases h
  | vdec q => cases h
  | vdecInf p => cases h
  | vstr s => cases h
  | vlist xs => cases h
  | obj attrs => cases h

/-- Every write produced by the field mapper targets one of the result
columns it was given. -/
lemma mapResultFields_key_sub (chosen : Dict) :
    ∀ (cols : List (String × String)) (w : String × PyVal),
      w ∈ (mapResultFields chosen cols).1 → ∃ tf, (w.1, tf) ∈ cols := by
  intro cols
  induction cols with
  | nil => intro w hw; simp [mapResultFields] at hw
  | cons p rest ih =>
    obtain ⟨rc, tf⟩ := p
    intro w hw
    simp only [mapResultFields] at hw
    by_cases hn : isNoneV (resolveValue chosen tf) = true
    · rw [if_pos hn] at hw
      obtain ⟨tf2, htf2⟩ := ih w hw
      exact ⟨tf2, by simp [htf2]⟩
    · rw [if_neg hn] at hw
      cases hcv : coerceValue rc (resolveValue chosen tf) with
      | error e => rw [hcv] at hw; simp at hw
      | ok v2 =>
        rw [hcv] at hw
        cases hrest : mapResultFields chosen rest with
        | mk ws e =>
          rw [hrest] at hw
          simp only [List.mem_cons] at hw
          cases hw with
          | inl hw0 => exact ⟨tf, by simp [congrArg Prod.fst hw0]⟩
          | inr hw1 =>
            obtain ⟨tf2, htf2⟩ := ih w (by rw [hrest]; exact hw1)
            exact ⟨tf2, by simp [htf2]⟩

/-- Every result column produced by the schema introspector has the
`chosen_` prefix. -/
lemma getResultColumns_startsWith (rowCols : List String) (rc tf : String)
    (h : (rc, tf) ∈ getResultColumns rowCols) :
    pyStartsWith rc "chosen_" = true := by
  simp only [getResultColumns, List.mem_filterMap] at h
  obtain ⟨col, hcol, heq⟩ := h
  by_cases hp : pyStartsWith col "chosen_" = true
  · rw [if_pos hp] at heq
    cases heq
    exact hp
  · rw [if_neg hp] at heq
    cases heq

/-- The writes that hit `chosen_*` fields, across an append. -/
lemma chosenWrites_append (ws1 ws2 : List (String × PyVal)) :
    chosenWrites (ws1 ++ ws2) = chosenWrites ws1 ++ chosenWrites ws2 :=
  List.filter_append ws1 ws2

lemma chosenWrites_eq_self (ws : List (String × PyVal))
    (h : ∀ w ∈ ws, pyStartsWith w.1 "chosen_" = true) :
    chosenWrites ws = ws := by
  rw [chosenWrites, List.filter_eq_self]
  intro a ha
  simpa using h a ha

/-- Setting one key leaves every other key's lookup unchanged. -/
lemma dictGet_dictSet_ne (d : Dict) (k k2 : String) (v : PyVal)
    (h : k2 ≠ k) : dictGet (dictSet d k v) k2 = dictGet d k2 := by
  induction d with
  | nil =>
    simp only [dictSet, dictGet]
    have : (k == k2) = false := by simpa using fun he => h he.symm
    simp [this]
  | cons p rest ih =>
    obtain ⟨k0, v0⟩ := p
    simp only [dictSet]
    by_cases h0 : (k0 == k) = true
    · rw [if_pos h0]
      have hk0 : k0 = k := by simpa using h0
      have h2 : (k == k2) = false := by simpa using fun he => h he.symm
      have h3 : (k0 == k2) = false := by
        subst hk0; exact h2
      simp [dictGet, h2, h3]
    · rw [if_neg h0]
      simp only [dictGet]
      by_cases h4 : (k0 == k2) = true
      · simp [h4]
      · simp only [h4, Bool.false_eq_true, if_false]
        exact ih

/-- Replaying the writes leaves every untouched key's lookup unchanged. -/
lemma applyWrites_frame (writes : List (String × PyVal)) :
    ∀ (row : Dict) (k : String), (∀ v, (k, v) ∉ writes) →
      dictGet (applyWrites row writes) k = dictGet row k := by
  induction writes with
  | nil => intro row k h; rfl
  | cons w ws ih =>
    intro row k h
    obtain ⟨kw, vw⟩ := w
    have hk : k ≠ kw := by
      intro he
      subst he
      exact h vw (by simp)
    have hrest := ih (dictSet row kw vw) k (fun v hv => h v (by simp [hv]))
    calc dictGet (applyWrites row ((kw, vw) :: ws)) k
        = dictGet (applyWrites (dictSet row kw vw) ws) k := rfl
      _ = dictGet (dictSet row kw vw) k := hrest
      _ = dictGet row k := dictGet_dictSet_ne row kw k vw hk

/-- Under `selectionSafe` the strategy dispatch succeeds and returns a
member of the candidate list. -/
lemma fallbackSelect_safe_ok (cands : List Dict) (strat : String)
    (hne : cands ≠ []) (hsafe : selectionSafe cands strat) :
    ∃ c r, fallbackSelect cands strat = .ok (c, r) ∧ c ∈ cands := by
  obtain ⟨c0, cs, rfl⟩ := List.exists_cons_of_ne_nil hne
  by_cases h1 : (strat == "first") = true
  · exact ⟨c0, "Fallback: No API key. Selected first candidate",
      by simp [fallbackSelect, h1], by simp⟩
  · by_cases h2 : pyStartsWith strat "min:" = true
    · have hnum : ∀ c ∈ c0 :: cs,
          (asNum ((fun c => (dictGet c (strDropN strat 4)).getD (.vinf true)) c)).isSome := by
        intro c hc
        cases hdg : dictGet c (strDropN strat 4) with
        | none => simp [hdg, asNum]
        | some v =>
          have := hsafe (Or.inl h2) c hc v hdg
          simpa [hdg] using this
      obtain ⟨i, hi, heq, _, _⟩ := pyMinByAux_spec _ cs c0 hnum
      refine ⟨(c0 :: cs).getD i [],
        "Fallback: No API key. Selected minimum " ++ strDropN strat 4 ++ " (" ++
          pyStr ((dictGet ((c0 :: cs).getD i []) (strDropN strat 4)).getD .none) ++ ")",
        ?_, getD_mem_of_lt _ _ _ hi⟩
      simp only [fallbackSelect, h1, Bool.false_eq_true, if_false, h2, if_true,
        pyMinBy]
      rw [heq]
    · by_cases h3 : pyStartsWith strat "max:" = true
      · have hnum : ∀ c ∈ c0 :: cs,
            (asNum ((fun c => (dictGet c (strDropN strat 4)).getD (.vinf false)) c)).isSome := by
          intro c hc
          cases hdg : dictGet c (strDropN strat 4) with
          | none => simp [hdg, asNum]
          | some v =>
            have := hsafe (Or.inr h3) c hc v hdg
            simpa [hdg] using this
        obtain ⟨i, hi, heq, _, _⟩ := pyMaxByAux_spec _ cs c0 hnum
        refine ⟨(c0 :: cs).getD i [],
          "Fallback: No API key. Selected maximum " ++ strDropN strat 4 ++ " (" ++
            pyStr ((dictGet ((c0 :: cs).getD i []) (strDropN strat 4)).getD .none) ++ ")",
          ?_, getD_mem_of_lt _ _ _ hi⟩
        simp only [fallbackSelect, h1, Bool.false_eq_true, if_false, h2, h3,
          if_true, pyMaxBy]
        rw [heq]
      · exact ⟨c0, "Fallback: Unknown strategy \x27" ++ strat ++ "\x27, used first",
          by simp [fallbackSelect, h1, h2, h3], by simp⟩

/-- Whatever the strategy, a successful selection returns a member. -/
lemma fallbackSelect_mem (cands : List Dict) (strat : String) (c : Dict)
    (r : String) (h : fallbackSelect cands strat = .ok (c, r))
    (hne : cands ≠ []) : c ∈ cands := by
  obtain ⟨c0, cs, rfl⟩ := List.exists_cons_of_ne_nil hne
  simp only [fallbackSelect] at h
  by_cases h1 : (strat == "first") = true
  · rw [if_pos h1] at h
    simp only [Except.ok.injEq, Prod.mk.injEq] at h
    obtain ⟨hc, hr⟩ := h
    rw [← hc]
    simp
  · rw [if_neg h1] at h
    by_cases h2 : pyStartsWith strat "min:" = true
    · rw [if_pos h2] at h
      cases hpm : pyMinBy (fun c => (dictGet c (strDropN strat 4)).getD (.vinf true)) (c0 :: cs) with
      | error e => rw [hpm] at h; cases h
      | ok chosen =>
        rw [hpm] at h
        simp only [Except.ok.injEq, Prod.mk.injEq] at h
        obtain ⟨hc, hr⟩ := h
        rw [← hc]
        exact pyMinByAux_mem _ cs c0 chosen hpm
    · rw [if_neg h2] at h
      by_cases h3 : pyStartsWith strat "max:" = true
      · rw [if_pos h3] at h
        cases hpm : pyMaxBy (fun c => (dictGet c (strDropN strat 4)).getD (.vinf false)) (c0 :: cs) with
        | error e => rw [hpm] at h; cases h
        | ok chosen =>
          rw [hpm] at h
          simp only [Except.ok.injEq, Prod.mk.injEq] at h
          obtain ⟨hc, hr⟩ := h
          rw [← hc]
          exact pyMaxByAux_mem _ cs c0 chosen hpm
      · rw [if_neg h3] at h
        simp only [Except.ok.injEq, Prod.mk.injEq] at h
        obtain ⟨hc, hr⟩ := h
        rw [← hc]
        simp

/-- Exhaustive shape analysis of `_apply_fallback` on non-empty
candidates: selection failure (no writes), mapping failure (the partial
writes of a single member), or success (one member's full mapping then
`reason` and `request`). -/
lemma applyFallback_cases (cands : List Dict) (cols : List (String × String))
    (strat : String) (hne : cands ≠ []) :
    (∃ e, fallbackSelect cands strat = .error e ∧
      applyFallback cands cols strat = ([], some e)) ∨
    (∃ c r e, fallbackSelect cands strat = .ok (c, r) ∧ c ∈ cands ∧
      (mapResultFields c cols).2 = some e ∧
      applyFallback cands cols strat = ((mapResultFields c cols).1, some e)) ∨
    (∃ c r, fallbackSelect cands strat = .ok (c, r) ∧ c ∈ cands ∧
      (mapResultFields c cols).2 = Option.none ∧
      applyFallback cands cols strat =
        ((mapResultFields c cols).1 ++
          [("reason", .vstr r),
           ("request", .vstr (jsonOfVal (fallbackRequestVal cands strat)))],
         Option.none)) := by
  have hemp : cands.isEmpty = false := by
    cases cands with
    | nil => exact absurd rfl hne
    | cons a as => rfl
  cases hsel : fallbackSelect cands strat with
  | error e =>
    left
    exact ⟨e, rfl, by simp [applyFallback, hemp, hsel]⟩
  | ok pr =>
    obtain ⟨c, r⟩ := pr
    have hcmem : c ∈ cands := fallbackSelect_mem cands strat c r hsel hne
    cases hmr : mapResultFields c cols with
    | mk mw er =>
      cases er with
      | none =>
        right; right
        refine ⟨c, r, rfl, hcmem, by rw [hmr], ?_⟩
        simp [applyFallback, hemp, hsel, hmr]
      | some e =>
        right; left
        refine ⟨c, r, e, rfl, hcmem, by rw [hmr], ?_⟩
        simp [applyFallback, hemp, hsel, hmr]

/-- Exhaustive shape analysis of `_call_openai`: an exception before
field mapping (no writes), a mapping exception (partial writes of one
member), or success (one member's full mapping then `reason` and
`request`). -/
lemma callOpenai_cases (resp : Except Unit PyVal) (cands : List Dict)
    (cols : List (String × String)) (og wc : String) :
    (∃ e, callOpenai resp cands cols og wc = ([], some e)) ∨
    (∃ c e, c ∈ cands ∧ (mapResultFields c cols).2 = some e ∧
      callOpenai resp cands cols og wc = ((mapResultFields c cols).1, some e)) ∨
    (∃ c rv, c ∈ cands ∧ (mapResultFields c cols).2 = Option.none ∧
      callOpenai resp cands cols og wc =
        ((mapResultFields c cols).1 ++
          [("reason", rv),
           ("request", .vstr (jsonOfVal (openaiRequestVal wc cands og)))],
         Option.none)) := by
  cases resp with
  | error u => exact Or.inl ⟨.externalError, rfl⟩
  | ok rv =>
    cases rv with
    | obj rd =>
      cases hneg : pyLt ((dictGet rd "chosen_index").getD (.vint 0)) (.vint 0) with
      | error e => exact Or.inl ⟨e, by simp [callOpenai, hneg]⟩
      | ok isNeg =>
        cases hltl : pyLt ((dictGet rd "chosen_index").getD (.vint 0))
            (.vint (cands.length : Int)) with
        | error e => exact Or.inl ⟨e, by simp [callOpenai, hneg, hltl]⟩
        | ok isLtLen =>
          cases hinv : isNeg || !isLtLen with
          | true =>
            cases hpi : pyIndex cands (PyVal.vint 0) with
            | error e =>
              exact Or.inl ⟨e, by simp [callOpenai, hneg, hltl, hinv, hpi]⟩
            | ok chosen =>
              have hcmem : chosen ∈ cands := pyIndex_mem cands _ chosen hpi
              cases hmr : mapResultFields chosen cols with
              | mk mw er =>
                cases er with
                | none =>
                  right; right
                  refine ⟨chosen,
                    PyVal.vstr ("AI selection invalid (index " ++ pyStr (PyVal.vint 0) ++
                      "), defaulted to first. Original reason: " ++
                      pyStr ((dictGet rd "reason").getD (.vstr "No reason provided"))),
                    hcmem, by rw [hmr], ?_⟩
                  simp [callOpenai, hneg, hltl, hinv, hpi, hmr, pySliceOk]
                | some e =>
                  right; left
                  refine ⟨chosen, e, hcmem, by rw [hmr], ?_⟩
                  simp [callOpenai, hneg, hltl, hinv, hpi, hmr, pySliceOk]
          | false =>
            cases hpi : pyIndex cands ((dictGet rd "chosen_index").getD (.vint 0)) with
            | error e =>
              exact Or.inl ⟨e, by simp [callOpenai, hneg, hltl, hinv, hpi]⟩
            | ok chosen =>
              have hcmem : chosen ∈ cands := pyIndex_mem cands _ chosen hpi
              cases hso : pySliceOk ((dictGet rd "reason").getD (.vstr "No reason provided")) with
              | error e =>
                exact Or.inl ⟨e, by simp [callOpenai, hneg, hltl, hinv, hpi, hso]⟩
              | ok u =>
                cases hmr : mapResultFields chosen cols with
                | mk mw er =>
                  cases er with
                  | none =>
                    right; right
                    refine ⟨chosen, (dictGet rd "reason").getD (.vstr "No reason provided"),
                      hcmem, by rw [hmr], ?_⟩
                    simp [callOpenai, hneg, hltl, hinv, hpi, hso, hmr]
                  | some e =>
                    right; left
                    refine ⟨chosen, e, hcmem, by rw [hmr], ?_⟩
                    simp [callOpenai, hneg, hltl, hinv, hpi, hso, hmr]
    | none => exact Or.inl ⟨.attributeError, rfl⟩
    | vbool b => exact Or.inl ⟨.attributeError, rfl⟩
    | vint n => exact Or.inl ⟨.attributeError, rfl⟩
    | vfloat q => exact Or.inl ⟨.attributeError, rfl⟩
    | vinf p => exact Or.inl ⟨.attributeError, rfl⟩
    | vdec q => exact Or.inl ⟨.attributeError, rfl⟩
    | vdecInf p => exact Or.inl ⟨.attributeError, rfl⟩
    | vstr s => exact Or.inl ⟨.attributeError, rfl⟩
    | vlist xs => exact Or.inl ⟨.attributeError, rfl⟩

/-- No string starts with both `"min:"` and `"max:"`. -/
lemma not_min_and_max (s : String) (h2 : pyStartsWith s "min:" = true)
    (h3 : pyStartsWith s "max:" = true) : False := by
  have hmin : "min:".data = ['m', 'i', 'n', ':'] := rfl
  have hmax : "max:".data = ['m', 'a', 'x', ':'] := rfl
  simp only [pyStartsWith, hmin, hmax] at h2 h3
  cases hd : s.data with
  | nil => rw [hd] at h2; simp [chStartsWith] at h2
  | cons a as =>
    rw [hd] at h2 h3
    cases as with
    | nil => simp [chStartsWith] at h2
    | cons b bs =>
      simp only [chStartsWith, Bool.and_eq_true, beq_iff_eq] at h2 h3
      obtain ⟨-, hb2, -⟩ := h2
      obtain ⟨-, hb3, -⟩ := h3
      rw [hb2] at hb3
      cases hb3

/-! ### Claims -/

/-- C5: the candidate resolver traverses segments by attribute lookup and
returns an empty sequence, without raising (it is a total function), when
any segment is missing or any intermediate value is null; a final
collection is returned as-is, and a final single (non-collection) entity
is wrapped as a one-element sequence. -/
theorem c5_candidate_resolver :
    (∀ (cur : PyVal) (p : String) (ps : List String),
      hasattrB cur p = false → navigatePath cur (p :: ps) = Option.none) ∧
    (∀ (cur : PyVal) (p : String) (ps : List String),
      isNoneV (getattrD cur p .none) = true →
      navigatePath cur (p :: ps) = Option.none) ∧
    (∀ (row : PyVal) (path : String),
      navigatePath row (strSplitOn path ".") = Option.none →
      getCandidates row path = []) ∧
    (∀ (row : PyVal) (path : String) (xs : List PyVal),
      navigatePath row (strSplitOn path ".") = some (.vlist xs) →
      getCandidates row path = xs) ∧
    (∀ (row : PyVal) (path : String) (attrs : List (String × PyVal)),
      navigatePath row (strSplitOn path ".") = some (.obj attrs) →
      getCandidates row path = [.obj attrs]) := by
  refine ⟨?_, ?_, ?_, ?_, ?_⟩
  · intro cur p ps h
    simp [navigatePath, h]
  · intro cur p ps h
    by_cases hh : hasattrB cur p = true
    · simp [navigatePath, hh, h]
    · simp [navigatePath, hh]
  · intro row path h
    simp [getCandidates, h]
  · intro row path xs h
    simp [getCandidates, h]
  · intro row path attrs h
    simp [getCandidates, h, truthyB]

/-- Witness for C5: a list-valued path returned as-is, a single related
entity wrapped as a singleton, and a missing attribute yielding the empty
sequence. -/
theorem c5_candidate_resolver_witness :
    getCandidates (.obj [("a", .vlist [.obj [("x", .vint 1)]])]) "a" =
      [.obj [("x", .vint 1)]] ∧
    getCandidates (.obj [("p", .obj [("q", .vint 5)])]) "p" = [.obj [("q", .vint 5)]] ∧
    navigatePath (.obj []) ("b" :: []) = Option.none := by
  refine ⟨?_, ?_, ?_⟩
  · exact c5_candidate_resolver.2.2.2.1 _ "a" _ (by rfl)
  · exact c5_candidate_resolver.2.2.2.2 _ "p" _ (by rfl)
  · exact c5_candidate_resolver.1 (.obj []) "b" [] (by rfl)

/-- C6 (code evaluation at the failing input): the result-schema
introspector maps a column via Python `replace('chosen_', '')`, which
removes every occurrence of `chosen_`, not only the leading prefix: the
column `chosen_chosen_id` is mapped to source field `id`, whereas
stripping only the prefix (the documented intent, 7 characters) yields
`chosen_id`. -/
theorem c6_replace_all_eval :
    getResultColumns ["chosen_chosen_id"] = [("chosen_chosen_id", "id")] ∧
    strDropN "chosen_chosen_id" 7 = "chosen_id" := by
  exact ⟨rfl, rfl⟩

/-- C10: for the recognized strategy forms `"first"`, `"min:<field>"`,
`"max:<field>"` on a non-empty candidate sequence, any reason string the
fallback records contains "No API key" — the reason template is fixed, so
it also claims a missing credential when the fallback was actually
invoked because the external call raised. -/
theorem c10_fallback_reason_no_api_key
    (cands : List Dict) (cols : List (String × String)) (strat : String)
    (r : String) (hne : cands ≠ [])
    (hcols : ∀ p ∈ cols, pyStartsWith p.1 "chosen_" = true)
    (hform : (strat == "first") = true ∨ pyStartsWith strat "min:" = true ∨
      pyStartsWith strat "max:" = true)
    (hmem : ("reason", PyVal.vstr r) ∈ (applyFallback cands cols strat).1) :
    strContains r "No API key" := by
  have hnotchosen : ∀ (tf : String), ("reason", tf) ∈ cols → False := by
    intro tf htf
    have h0 := hcols ("reason", tf) htf
    have h1 : pyStartsWith "reason" "chosen_" = true := h0
    exact absurd h1 (by decide)
  rcases applyFallback_cases cands cols strat hne with
    ⟨e, hsel, happ⟩ | ⟨c, r0, e, hsel, hcm, hmr, happ⟩ | ⟨c, r0, hsel, hcm, hmr, happ⟩
  · rw [happ] at hmem
    simp at hmem
  · rw [happ] at hmem
    obtain ⟨tf, htf⟩ := mapResultFields_key_sub c cols ("reason", PyVal.vstr r) hmem
    exact absurd htf (fun h => hnotchosen tf h)
  · rw [happ] at hmem
    rcases List.mem_append.mp hmem with hmw | htail
    · obtain ⟨tf, htf⟩ := mapResultFields_key_sub c cols ("reason", PyVal.vstr r) hmw
      exact absurd htf (fun h => hnotchosen tf h)
    · have hr : r = r0 := by
        rcases List.mem_cons.mp htail with h0 | h1
        · exact (PyVal.vstr.injEq r r0).mp (congrArg Prod.snd h0)
        · simp only [List.mem_singleton] at h1
          have hk : "reason" = "request" := congrArg Prod.fst h1
          exact absurd hk (by decide)
      subst hr
      rcases hform with h1 | h2 | h3
      · have hsel2 : fallbackSelect cands strat =
            .ok (cands.headD [], "Fallback: No API key. Selected first candidate") := by
          simp [fallbackSelect, h1]
        rw [hsel2] at hsel
        simp only [Except.ok.injEq, Prod.mk.injEq] at hsel
        obtain ⟨-, hr0⟩ := hsel
        rw [← hr0]
        exact ⟨"Fallback: ".data, ". Selected first candidate".data, rfl⟩
      · have h1 : (strat == "first") = false := by
          cases hq : (strat == "first") with
          | false => rfl
          | true =>
            have hs : strat = "first" := by simpa using hq
            rw [hs] at h2
            exact absurd h2 (by decide)
        rw [fallbackSelect, h1] at hsel
        simp only [Bool.false_eq_true, if_false, h2, if_true] at hsel
        cases hpm : pyMinBy (fun c => (dictGet c (strDropN strat 4)).getD (.vinf true)) cands with
        | error e => rw [hpm] at hsel; cases hsel
        | ok chosen =>
          rw [hpm] at hsel
          simp only [Except.ok.injEq, Prod.mk.injEq] at hsel
          obtain ⟨-, hr0⟩ := hsel
          rw [← hr0]
          refine ⟨"Fallback: ".data,
            ". Selected minimum ".data ++ ((strDropN strat 4).data ++ (" (".data ++
              ((pyStr ((dictGet chosen (strDropN strat 4)).getD .none)).data ++ ")".data))), ?_⟩
          simp only [String.data_append, List.append_assoc]
          rfl
      · have h1 : (strat == "first") = false := by
          cases hq : (strat == "first") with
          | false => rfl
          | true =>
            have hs : strat = "first" := by simpa using hq
            rw [hs] at h3
            exact absurd h3 (by decide)
        have h2 : pyStartsWith strat "min:" = false := by
          cases hq : pyStartsWith strat "min:" with
          | false => rfl
          | true => exact absurd (not_min_and_max strat hq h3) (fun h => h)
        rw [fallbackSelect, h1] at hsel
        simp only [Bool.false_eq_true, if_false, h2, h3, if_true] at hsel
        cases hpm : pyMaxBy (fun c => (dictGet c (strDropN strat 4)).getD (.vinf false)) cands with
        | error e => rw [hpm] at hsel; cases hsel
        | ok chosen =>
          rw [hpm] at hsel
          simp only [Except.ok.injEq, Prod.mk.injEq] at hsel
          obtain ⟨-, hr0⟩ := hsel
          rw [← hr0]
          refine ⟨"Fallback: ".data,
            ". Selected maximum ".data ++ ((strDropN strat 4).data ++ (" (".data ++
              ((pyStr ((dictGet chosen (strDropN strat 4)).getD .none)).data ++ ")".data))), ?_⟩
          simp only [String.data_append, List.append_assoc]
          rfl

/-- Witness for C10 at a concrete min-strategy fallback. -/
theorem c10_fallback_reason_no_api_key_witness :
    strContains "Fallback: No API key. Selected minimum a (1)" "No API key" := by
  refine c10_fallback_reason_no_api_key [[("a", .vint 1)]] [] "min:a"
    "Fallback: No API key. Selected minimum a (1)" (by simp) (by simp)
    (Or.inr (Or.inl (by rfl))) ?_
  exact List.Mem.head _

/-- C8: whenever a decision succeeds — on the AI path or on any fallback
over a non-empty candidate sequence — the same call sets both `reason`
and `request`, with `request` holding the JSON serialization of the
decision's inputs. -/
theorem c8_reason_request_together :
    (∀ (cands : List Dict) (cols : List (String × String)) (strat : String)
        (ws : List (String × PyVal)),
      cands ≠ [] → applyFallback cands cols strat = (ws, Option.none) →
      (∃ r, ("reason", PyVal.vstr r) ∈ ws) ∧
        ("request", PyVal.vstr (jsonOfVal (fallbackRequestVal cands strat))) ∈ ws) ∧
    (∀ (resp : Except Unit PyVal) (cands : List Dict)
        (cols : List (String × String)) (og wc : String)
        (ws : List (String × PyVal)),
      callOpenai resp cands cols og wc = (ws, Option.none) →
      (∃ rv, ("reason", rv) ∈ ws) ∧
        ("request", PyVal.vstr (jsonOfVal (openaiRequestVal wc cands og))) ∈ ws) := by
  constructor
  · intro cands cols strat ws hne happ
    rcases applyFallback_cases cands cols strat hne with
      ⟨e, hsel, h2⟩ | ⟨c, r0, e, hsel, hcm, hmr, h2⟩ | ⟨c, r0, hsel, hcm, hmr, h2⟩
    · rw [happ] at h2
      simp at h2
    · rw [happ] at h2
      simp at h2
    · rw [happ] at h2
      simp only [Prod.mk.injEq] at h2
      obtain ⟨hws, -⟩ := h2
      subst hws
      exact ⟨⟨r0, by simp⟩, by simp⟩
  · intro resp cands cols og wc ws hcall
    rcases callOpenai_cases resp cands cols og wc with
      ⟨e, h2⟩ | ⟨c, e, hcm, hmr, h2⟩ | ⟨c, rv, hcm, hmr, h2⟩
    · rw [hcall] at h2
      simp at h2
    · rw [hcall] at h2
      simp at h2
    · rw [hcall] at h2
      simp only [Prod.mk.injEq] at h2
      obtain ⟨hws, -⟩ := h2
      subst hws
      exact ⟨⟨rv, by simp⟩, by simp⟩

/-- Witness for C8: a concrete successful fallback decision and a
concrete successful AI decision, each setting `reason` and `request`. -/
theorem c8_reason_request_together_witness :
    ((∃ r, ("reason", PyVal.vstr r) ∈
        (applyFallback [[("a", .vint 1)]] [("chosen_a", "a")] "first").1) ∧
      ("request", PyVal.vstr (jsonOfVal (fallbackRequestVal [[("a", .vint 1)]] "first"))) ∈
        (applyFallback [[("a", .vint 1)]] [("chosen_a", "a")] "first").1) ∧
    ((∃ rv, ("reason", rv) ∈
        (callOpenai (.ok (.obj [("chosen_index", .vint 0), ("reason", .vstr "ok")]))
          [[("a", .vint 1)]] [("chosen_a", "a")] "goal" "wc").1) ∧
      ("request", PyVal.vstr (jsonOfVal (openaiRequestVal "wc" [[("a", .vint 1)]] "goal"))) ∈
        (callOpenai (.ok (.obj [("chosen_index", .vint 0), ("reason", .vstr "ok")]))
          [[("a", .vint 1)]] [("chosen_a", "a")] "goal" "wc").1) := by
  constructor
  · exact c8_reason_request_together.1 [[("a", .vint 1)]] [("chosen_a", "a")] "first" _
      (by simp) rfl
  · exact c8_reason_request_together.2
      (.ok (.obj [("chosen_index", .vint 0), ("reason", .vstr "ok")]))
      [[("a", .vint 1)]] [("chosen_a", "a")] "goal" "wc" _ rfl

/-- C4: on a non-empty candidate sequence, an external response whose
`chosen_index` is an out-of-range integer (negative or `≥ len`) makes the
routine select candidate 0, annotate the stored reason as a defaulted
selection, and still map all result fields from candidate 0 — it is not
treated as a failure.  (The source's f-string interpolates the index
after its reassignment, so the annotation always reads `index 0`.) -/
theorem c4_invalid_index_recovery
    (cands : List Dict) (cols : List (String × String)) (og wc : String)
    (i : Int) (r : String) (hne : cands ≠ [])
    (hoor : i < 0 ∨ (cands.length : Int) ≤ i)
    (hclean : (mapResultFields (cands.headD []) cols).2 = Option.none) :
    callOpenai (.ok (.obj [("chosen_index", .vint i), ("reason", .vstr r)]))
        cands cols og wc =
      ((mapResultFields (cands.headD []) cols).1 ++
        [("reason", .vstr ("AI selection invalid (index 0), defaulted to first. Original reason: " ++ r)),
         ("request", .vstr (jsonOfVal (openaiRequestVal wc cands og)))],
       Option.none) ∧
    strContains
      ("AI selection invalid (index 0), defaulted to first. Original reason: " ++ r)
      "defaulted to first" := by
  obtain ⟨c0, cs, rfl⟩ := List.exists_cons_of_ne_nil hne
  simp only [List.headD_cons] at hclean ⊢
  have hneg : pyLt (.vint i) (.vint 0) = .ok (decide (i < 0)) := pyLt_vint i 0
  have hltl : pyLt (.vint i) (.vint ((c0 :: cs).length : Int))
      = .ok (decide (i < ((c0 :: cs).length : Int))) :=
    pyLt_vint i ((c0 :: cs).length : Int)
  have hinv : (decide (i < 0) || !decide (i < ((c0 :: cs).length : Int))) = true := by
    rcases hoor with h | h
    · rw [decide_eq_true h]
      rfl
    · have h2 : decide (i < ((c0 :: cs).length : Int)) = false :=
        decide_eq_false (not_lt.mpr h)
      rw [h2]
      cases hd : decide (i < 0) <;> rfl
  have hidx : pyIndex (c0 :: cs) (PyVal.vint 0) = .ok c0 := by
    have hc : (0 : Int) ≤ 0 ∧ (0 : Int) < ((c0 :: cs).length : Int) := by
      refine ⟨le_refl _, ?_⟩
      simp only [List.length_cons]
      omega
    simp [pyIndex, pyIndexInt, hc]
  cases hmr : mapResultFields c0 cols with
  | mk mw er =>
    rw [hmr] at hclean
    change er = Option.none at hclean
    subst hclean
    constructor
    · have hg1 : (dictGet [("chosen_index", PyVal.vint i), ("reason", PyVal.vstr r)]
          "chosen_index").getD (.vint 0) = .vint i := rfl
      have hg2 : (dictGet [("chosen_index", PyVal.vint i), ("reason", PyVal.vstr r)]
          "reason").getD (.vstr "No reason provided") = .vstr r := rfl
      simp only [callOpenai, hg1, hg2, hneg, hltl, hinv, reduceIte, hidx,
        pySliceOk, hmr]
      rfl
    · refine ⟨"AI selection invalid (index 0), ".data,
        ". Original reason: ".data ++ r.data, ?_⟩
      simp only [String.data_append, List.append_assoc]
      rfl

/-- Witness for C4 at a concrete response with `chosen_index = -1`. -/
theorem c4_invalid_index_recovery_witness :
    callOpenai (.ok (.obj [("chosen_index", .vint (-1)), ("reason", .vstr "why")]))
        [[("x_id", .vint 5)]] [("chosen_x_id", "x_id")] "goal" "wc" =
      ((mapResultFields ([[("x_id", .vint 5)]].headD []) [("chosen_x_id", "x_id")]).1 ++
        [("reason", .vstr ("AI selection invalid (index 0), defaulted to first. Original reason: " ++ "why")),
         ("request", .vstr (jsonOfVal (openaiRequestVal "wc" [[("x_id", .vint 5)]] "goal")))],
       Option.none) ∧
    strContains
      ("AI selection invalid (index 0), defaulted to first. Original reason: " ++ "why")
      "defaulted to first" := by
  exact c4_invalid_index_recovery [[("x_id", .vint 5)]] [("chosen_x_id", "x_id")]
    "goal" "wc" (-1) "why" (by simp) (Or.inl (by decide)) rfl

/-- C7: every mapped result field is the coercion of the value resolved
from the chosen candidate: a result column whose name contains `_id`
stores the value truncated to an integer (`7.0` becomes `7`); otherwise a
column whose name contains `_price`, `_cost` or `_amount` stores a
`Decimal` carrying exactly the source's rational value (the `vdec`
constructor — never a binary float); all other resolved values are copied
as-is. -/
theorem c7_field_coercion (chosen : Dict) (cols : List (String × String))
    (rc : String) (w : PyVal)
    (hmem : (rc, w) ∈ (mapResultFields chosen cols).1) :
    ∃ tf, (rc, tf) ∈ cols ∧ isNoneV (resolveValue chosen tf) = false ∧
      coerceValue rc (resolveValue chosen tf) = .ok w ∧
      (idCond rc = true →
        (∀ n, resolveValue chosen tf = .vint n → w = .vint n) ∧
        (∀ q, resolveValue chosen tf = .vfloat q →
          w = .vint (Int.tdiv q.num (q.den : Int)))) ∧
      (idCond rc = false → moneyCond rc = true →
        (∀ n, resolveValue chosen tf = .vint n → w = .vdec (n : ℚ)) ∧
        (∀ q, resolveValue chosen tf = .vfloat q → w = .vdec q)) ∧
      (idCond rc = false → moneyCond rc = false → w = resolveValue chosen tf) ∧
      (isPyNumber (resolveValue chosen tf) = false → w = resolveValue chosen tf) := by
  induction cols with
  | nil => simp [mapResultFields] at hmem
  | cons p rest ih =>
    obtain ⟨rc0, tf0⟩ := p
    simp only [mapResultFields] at hmem
    by_cases hn : isNoneV (resolveValue chosen tf0) = true
    · rw [if_pos hn] at hmem
      obtain ⟨tf, h1, h2, h3, h4, h5, h6, h7⟩ := ih hmem
      exact ⟨tf, by simp [h1], h2, h3, h4, h5, h6, h7⟩
    · rw [if_neg hn] at hmem
      cases hcv : coerceValue rc0 (resolveValue chosen tf0) with
      | error e => rw [hcv] at hmem; simp at hmem
      | ok v2 =>
        rw [hcv] at hmem
        cases hrest : mapResultFields chosen rest with
        | mk ws e =>
          rw [hrest] at hmem
          simp only [List.mem_cons] at hmem
          cases hmem with
          | inl h0 =>
            injection h0 with hrc hw
            subst hrc
            subst hw
            refine ⟨tf0, by simp, Bool.eq_false_iff.mpr hn, hcv, ?_, ?_, ?_, ?_⟩
            · intro hid
              constructor
              · intro n hv
                rw [hv] at hcv
                simp only [coerceValue, isPyNumber, if_true, hid, pyIntOf] at hcv
                exact (Except.ok.inj hcv).symm
              · intro q hv
                rw [hv] at hcv
                simp only [coerceValue, isPyNumber, if_true, hid, pyIntOf] at hcv
                exact (Except.ok.inj hcv).symm
            · intro hid hmoney
              constructor
              · intro n hv
                rw [hv] at hcv
                simp only [coerceValue, isPyNumber, if_true, hid, hmoney,
                  Bool.false_eq_true, if_false, pyDecimalOfStr] at hcv
                exact (Except.ok.inj hcv).symm
              · intro q hv
                rw [hv] at hcv
                simp only [coerceValue, isPyNumber, if_true, hid, hmoney,
                  Bool.false_eq_true, if_false, pyDecimalOfStr] at hcv
                exact (Except.ok.inj hcv).symm
            · intro hid hmoney
              by_cases hnum : isPyNumber (resolveValue chosen tf0) = true
              · simp only [coerceValue, hnum, if_true, hid, hmoney,
                  Bool.false_eq_true, if_false] at hcv
                exact (Except.ok.inj hcv).symm
              · have hnum2 : isPyNumber (resolveValue chosen tf0) = false :=
                  Bool.eq_false_iff.mpr hnum
                simp only [coerceValue, hnum2, Bool.false_eq_true, if_false] at hcv
                exact (Except.ok.inj hcv).symm
            · intro hnum
              simp only [coerceValue, hnum, Bool.false_eq_true, if_false] at hcv
              exact (Except.ok.inj hcv).symm
          | inr h1 =>
            obtain ⟨tf, h1, h2, h3, h4, h5, h6, h7⟩ :=
              ih (by rw [hrest]; exact h1)
            exact ⟨tf, by simp [h1], h2, h3, h4, h5, h6, h7⟩

/-- Witness for C7: a float `7.0` id field stored as the integer `7`, a
float `10.5` monetary field stored as the exact decimal `21/2`. -/
theorem c7_field_coercion_witness :
    (∃ tf, ("chosen_supplier_id", tf) ∈
        [("chosen_supplier_id", "supplier_id"), ("chosen_unit_price", "unit_cost")] ∧
      isNoneV (resolveValue [("supplier_id", .vfloat 7), ("unit_cost", .vfloat (mkRat 21 2))] tf) = false ∧
      coerceValue "chosen_supplier_id"
        (resolveValue [("supplier_id", .vfloat 7), ("unit_cost", .vfloat (mkRat 21 2))] tf) =
        .ok (PyVal.vint 7) ∧
      (idCond "chosen_supplier_id" = true →
        (∀ n, resolveValue [("supplier_id", .vfloat 7), ("unit_cost", .vfloat (mkRat 21 2))] tf = .vint n →
          PyVal.vint 7 = .vint n) ∧
        (∀ q, resolveValue [("supplier_id", .vfloat 7), ("unit_cost", .vfloat (mkRat 21 2))] tf = .vfloat q →
          PyVal.vint 7 = .vint (Int.tdiv q.num (q.den : Int)))) ∧
      (idCond "chosen_supplier_id" = false → moneyCond "chosen_supplier_id" = true →
        (∀ n, resolveValue [("supplier_id", .vfloat 7), ("unit_cost", .vfloat (mkRat 21 2))] tf = .vint n →
          PyVal.vint 7 = .vdec (n : ℚ)) ∧
        (∀ q, resolveValue [("supplier_id", .vfloat 7), ("unit_cost", .vfloat (mkRat 21 2))] tf = .vfloat q →
          PyVal.vint 7 = .vdec q)) ∧
      (idCond "chosen_supplier_id" = false → moneyCond "chosen_supplier_id" = false →
        PyVal.vint 7 = resolveValue [("supplier_id", .vfloat 7), ("unit_cost", .vfloat (mkRat 21 2))] tf) ∧
      (isPyNumber (resolveValue [("supplier_id", .vfloat 7), ("unit_cost", .vfloat (mkRat 21 2))] tf) = false →
        PyVal.vint 7 = resolveValue [("supplier_id", .vfloat 7), ("unit_cost", .vfloat (mkRat 21 2))] tf)) ∧
    (mapResultFields [("supplier_id", .vfloat 7), ("unit_cost", .vfloat (mkRat 21 2))]
        [("chosen_supplier_id", "supplier_id"), ("chosen_unit_price", "unit_cost")]).1 =
      [("chosen_supplier_id", .vint 7), ("chosen_unit_price", .vdec (mkRat 21 2))] := by
  constructor
  · exact c7_field_coercion
      [("supplier_id", .vfloat 7), ("unit_cost", .vfloat (mkRat 21 2))]
      [("chosen_supplier_id", "supplier_id"), ("chosen_unit_price", "unit_cost")]
      "chosen_supplier_id" (PyVal.vint 7) (List.Mem.head _)
  · rfl

/-- C3: on a non-empty candidate sequence, the `min:<field>` strategy
chooses the candidate whose field value is minimal and the `max:<field>`
strategy the one whose value is maximal, a missing field counting as
`+inf` for min and `-inf` for max (see `minKeyN`/`maxKeyN`); ties — and
the all-missing case — resolve to the earliest-indexed such candidate
(every strictly earlier index has a strictly worse key). -/
theorem c3_fallback_min_max
    (cands : List Dict) (strat : String) (hne : cands ≠ [])
    (hnum : ∀ c ∈ cands, ∀ v,
      dictGet c (strDropN strat 4) = some v → (asNum v).isSome) :
    ((strat == "first") = false → pyStartsWith strat "min:" = true →
      ∃ i r, i < cands.length ∧
        fallbackSelect cands strat = .ok (cands.getD i [], r) ∧
        (∀ j, j < cands.length →
          minKeyN strat (cands.getD i []) ≤ minKeyN strat (cands.getD j [])) ∧
        (∀ j, j < i →
          minKeyN strat (cands.getD i []) < minKeyN strat (cands.getD j []))) ∧
    ((strat == "first") = false → pyStartsWith strat "min:" = false →
      pyStartsWith strat "max:" = true →
      ∃ i r, i < cands.length ∧
        fallbackSelect cands strat = .ok (cands.getD i [], r) ∧
        (∀ j, j < cands.length →
          maxKeyN strat (cands.getD j []) ≤ maxKeyN strat (cands.getD i [])) ∧
        (∀ j, j < i →
          maxKeyN strat (cands.getD j []) < maxKeyN strat (cands.getD i []))) := by
  obtain ⟨c0, cs, rfl⟩ := List.exists_cons_of_ne_nil hne
  constructor
  · intro h1 h2
    have hkey : ∀ c ∈ c0 :: cs,
        (asNum ((fun c => (dictGet c (strDropN strat 4)).getD (.vinf true)) c)).isSome := by
      intro c hc
      cases hdg : dictGet c (strDropN strat 4) with
      | none => simp [hdg, asNum]
      | some v =>
        have := hnum c hc v hdg
        simpa [hdg] using this
    obtain ⟨i, hi, heq, hmin, hstrict⟩ := pyMinByAux_spec _ cs c0 hkey
    refine ⟨i,
      "Fallback: No API key. Selected minimum " ++ strDropN strat 4 ++ " (" ++
        pyStr ((dictGet ((c0 :: cs).getD i []) (strDropN strat 4)).getD .none) ++ ")",
      hi, ?_, ?_, ?_⟩
    · simp only [fallbackSelect, h1, Bool.false_eq_true, if_false, h2, if_true,
        pyMinBy]
      rw [heq]
    · intro j hj
      exact hmin j hj
    · intro j hj
      exact hstrict j hj
  · intro h1 h2 h3
    have hkey : ∀ c ∈ c0 :: cs,
        (asNum ((fun c => (dictGet c (strDropN strat 4)).getD (.vinf false)) c)).isSome := by
      intro c hc
      cases hdg : dictGet c (strDropN strat 4) with
      | none => simp [hdg, asNum]
      | some v =>
        have := hnum c hc v hdg
        simpa [hdg] using this
    obtain ⟨i, hi, heq, hmax, hstrict⟩ := pyMaxByAux_spec _ cs c0 hkey
    refine ⟨i,
      "Fallback: No API key. Selected maximum " ++ strDropN strat 4 ++ " (" ++
        pyStr ((dictGet ((c0 :: cs).getD i []) (strDropN strat 4)).getD .none) ++ ")",
      hi, ?_, ?_, ?_⟩
    · simp only [fallbackSelect, h1, Bool.false_eq_true, if_false, h2, h3, if_true,
        pyMaxBy]
      rw [heq]
    · intro j hj
      exact hmax j hj
    · intro j hj
      exact hstrict j hj

/-- Witness for C3: `min:unit_cost` on
`[{id 1, unit_cost 12.0}, {id 2, unit_cost 9.5}, {id 3, unit_cost 9.5}]`
satisfies the minimality characterization, and concretely the id-2
candidate (index 1, the earliest minimum) is chosen. -/
theorem c3_fallback_min_max_witness :
    (∃ i r, i < ([[("id", PyVal.vint 1), ("unit_cost", PyVal.vfloat 12)],
        [("id", PyVal.vint 2), ("unit_cost", PyVal.vfloat (mkRat 19 2))],
        [("id", PyVal.vint 3), ("unit_cost", PyVal.vfloat (mkRat 19 2))]] : List Dict).length ∧
      fallbackSelect [[("id", PyVal.vint 1), ("unit_cost", PyVal.vfloat 12)],
        [("id", PyVal.vint 2), ("unit_cost", PyVal.vfloat (mkRat 19 2))],
        [("id", PyVal.vint 3), ("unit_cost", PyVal.vfloat (mkRat 19 2))]] "min:unit_cost" =
        .ok (([[("id", PyVal.vint 1), ("unit_cost", PyVal.vfloat 12)],
          [("id", PyVal.vint 2), ("unit_cost", PyVal.vfloat (mkRat 19 2))],
          [("id", PyVal.vint 3), ("unit_cost", PyVal.vfloat (mkRat 19 2))]] : List Dict).getD i [], r)) ∧
    fallbackSelect [[("id", PyVal.vint 1), ("unit_cost", PyVal.vfloat 12)],
      [("id", PyVal.vint 2), ("unit_cost", PyVal.vfloat (mkRat 19 2))],
      [("id", PyVal.vint 3), ("unit_cost", PyVal.vfloat (mkRat 19 2))]] "min:unit_cost" =
      .ok ([("id", PyVal.vint 2), ("unit_cost", PyVal.vfloat (mkRat 19 2))],
        "Fallback: No API key. Selected minimum unit_cost (9.5)") := by
  constructor
  · have hnum : ∀ c ∈ ([[("id", PyVal.vint 1), ("unit_cost", PyVal.vfloat 12)],
        [("id", PyVal.vint 2), ("unit_cost", PyVal.vfloat (mkRat 19 2))],
        [("id", PyVal.vint 3), ("unit_cost", PyVal.vfloat (mkRat 19 2))]] : List Dict), ∀ v,
        dictGet c (strDropN "min:unit_cost" 4) = some v → (asNum v).isSome := by
      intro c hc v hv
      simp only [List.mem_cons, List.not_mem_nil, or_false] at hc
      rcases hc with rfl | rfl | rfl
      · have h2 : some (PyVal.vfloat 12) = some v := hv
        rw [← Option.some.inj h2]
        rfl
      · have h2 : some (PyVal.vfloat (mkRat 19 2)) = some v := hv
        rw [← Option.some.inj h2]
        rfl
      · have h2 : some (PyVal.vfloat (mkRat 19 2)) = some v := hv
        rw [← Option.some.inj h2]
        rfl
    obtain ⟨i, r, hi, heq, -, -⟩ :=
      (c3_fallback_min_max _ "min:unit_cost" (by simp) hnum).1 (by rfl) (by rfl)
    exact ⟨i, r, hi, heq⟩
  · rfl

/-- Every write of the fallback routine is a `reason`/`request` write or
targets one of the given result columns. -/
lemma applyFallback_writes_designated (cands : List Dict)
    (cols : List (String × String)) (strat : String)
    (hcols : ∀ p ∈ cols, pyStartsWith p.1 "chosen_" = true) :
    ∀ w ∈ (applyFallback cands cols strat).1,
      w.1 = "reason" ∨ w.1 = "request" ∨ pyStartsWith w.1 "chosen_" = true := by
  intro w hw
  by_cases hne : cands = []
  · subst hne
    simp only [applyFallback, List.isEmpty_nil, if_true, List.mem_singleton] at hw
    rw [hw]
    left
    rfl
  · rcases applyFallback_cases cands cols strat hne with
      ⟨e, hsel, happ⟩ | ⟨c, r0, e, hsel, hcm, hmr, happ⟩ | ⟨c, r0, hsel, hcm, hmr, happ⟩
    · rw [happ] at hw
      simp at hw
    · rw [happ] at hw
      obtain ⟨tf, htf⟩ := mapResultFields_key_sub c cols w hw
      exact Or.inr (Or.inr (hcols (w.1, tf) htf))
    · rw [happ] at hw
      rcases List.mem_append.mp hw with hmw | htail
      · obtain ⟨tf, htf⟩ := mapResultFields_key_sub c cols w hmw
        exact Or.inr (Or.inr (hcols (w.1, tf) htf))
      · simp only [List.mem_cons, List.not_mem_nil, or_false] at htail
        rcases htail with rfl | rfl
        · left
          rfl
        · right
          left
          rfl

/-- Every write of the AI call path is a `reason`/`request` write or
targets one of the given result columns. -/
lemma callOpenai_writes_designated (resp : Except Unit PyVal)
    (cands : List Dict) (cols : List (String × String)) (og wc : String)
    (hcols : ∀ p ∈ cols, pyStartsWith p.1 "chosen_" = true) :
    ∀ w ∈ (callOpenai resp cands cols og wc).1,
      w.1 = "reason" ∨ w.1 = "request" ∨ pyStartsWith w.1 "chosen_" = true := by
  intro w hw
  rcases callOpenai_cases resp cands cols og wc with
    ⟨e, happ⟩ | ⟨c, e, hcm, hmr, happ⟩ | ⟨c, rv, hcm, hmr, happ⟩
  · rw [happ] at hw
    simp at hw
  · rw [happ] at hw
    obtain ⟨tf, htf⟩ := mapResultFields_key_sub c cols w hw
    exact Or.inr (Or.inr (hcols (w.1, tf) htf))
  · rw [happ] at hw
    rcases List.mem_append.mp hw with hmw | htail
    · obtain ⟨tf, htf⟩ := mapResultFields_key_sub c cols w hmw
      exact Or.inr (Or.inr (hcols (w.1, tf) htf))
    · simp only [List.mem_cons, List.not_mem_nil, or_false] at htail
      rcases htail with rfl | rfl
      · left
        rfl
      · right
        left
        rfl

/-- C9: a call mutates only the target row's designated fields — every
`setattr` the routine performs hits `reason`, `request`, or a
`chosen_`-prefixed column (candidate entities are never written: the
write list is the call's complete mutation footprint) — and any other
field of the target row reads back unchanged after the writes are
replayed. -/
theorem c9_frame (hasApiKey : Bool) (response : Except Unit PyVal)
    (rowAttrs : Dict) (rowColumns : List String) (schema : Schema)
    (candidatesPath optimizeFor fallback worldConditions : String) :
    (∀ w ∈ (compute_ai_value hasApiKey response rowAttrs rowColumns schema
        candidatesPath optimizeFor fallback worldConditions).1,
      w.1 = "reason" ∨ w.1 = "request" ∨ pyStartsWith w.1 "chosen_" = true) ∧
    (∀ k, (∀ v, (k, v) ∉ (compute_ai_value hasApiKey response rowAttrs rowColumns
        schema candidatesPath optimizeFor fallback worldConditions).1) →
      dictGet (applyWrites rowAttrs (compute_ai_value hasApiKey response rowAttrs
        rowColumns schema candidatesPath optimizeFor fallback worldConditions).1) k =
        dictGet rowAttrs k) := by
  have hcols : ∀ p ∈ getResultColumns rowColumns,
      pyStartsWith p.1 "chosen_" = true := by
    intro p hp
    exact getResultColumns_startsWith rowColumns p.1 p.2 hp
  constructor
  · intro w hw
    by_cases hemp : (getCandidates (.obj rowAttrs) candidatesPath).isEmpty = true
    · simp only [compute_ai_value, hemp, if_true, List.mem_singleton] at hw
      rw [hw]
      left
      rfl
    · have hemp2 : (getCandidates (.obj rowAttrs) candidatesPath).isEmpty = false :=
        Bool.eq_false_iff.mpr hemp
      simp only [compute_ai_value, hemp2, Bool.false_eq_true, if_false] at hw
      cases hkey : hasApiKey with
      | false =>
        rw [hkey] at hw
        simp only [Bool.not_false, if_true] at hw
        exact applyFallback_writes_designated _ _ _ hcols w hw
      | true =>
        rw [hkey] at hw
        simp only [Bool.not_true, Bool.false_eq_true, if_false] at hw
        cases hco : callOpenai response
            (serializeCandidates schema (getCandidates (.obj rowAttrs) candidatesPath))
            (getResultColumns rowColumns) optimizeFor worldConditions with
        | mk ws e =>
          rw [hco] at hw
          cases e with
          | none =>
            have hws : ws = (callOpenai response
                (serializeCandidates schema (getCandidates (.obj rowAttrs) candidatesPath))
                (getResultColumns rowColumns) optimizeFor worldConditions).1 := by
              rw [hco]
            rw [hws] at hw
            exact callOpenai_writes_designated _ _ _ _ _ hcols w hw
          | some e0 =>
            cases haf : applyFallback
                (serializeCandidates schema (getCandidates (.obj rowAttrs) candidatesPath))
                (getResultColumns rowColumns) fallback with
            | mk ws2 e2 =>
              rw [haf] at hw
              simp only at hw
              rcases List.mem_append.mp hw with h1 | h2
              · have hws : ws = (callOpenai response
                    (serializeCandidates schema (getCandidates (.obj rowAttrs) candidatesPath))
                    (getResultColumns rowColumns) optimizeFor worldConditions).1 := by
                  rw [hco]
                rw [hws] at h1
                exact callOpenai_writes_designated _ _ _ _ _ hcols w h1
              · have hws2 : ws2 = (applyFallback
                    (serializeCandidates schema (getCandidates (.obj rowAttrs) candidatesPath))
                    (getResultColumns rowColumns) fallback).1 := by
                  rw [haf]
                rw [hws2] at h2
                exact applyFallback_writes_designated _ _ _ hcols w h2
  · intro k hk
    exact applyWrites_frame _ rowAttrs k hk

/-- Witness for C9: a concrete call writes only designated fields and
leaves the target row's `other` attribute unchanged. -/
theorem c9_frame_witness :
    dictGet (applyWrites [("other", .vint 9), ("cands", .vlist [.obj [("a", .vint 1)]])]
      (compute_ai_value false (.error ())
        [("other", .vint 9), ("cands", .vlist [.obj [("a", .vint 1)]])]
        ["chosen_a"] ⟨["a"], []⟩ "cands" "goal" "first" "wc").1) "other" =
      dictGet [("other", .vint 9), ("cands", .vlist [.obj [("a", .vint 1)]])] "other" := by
  refine (c9_frame false (.error ())
    [("other", .vint 9), ("cands", .vlist [.obj [("a", .vint 1)]])]
    ["chosen_a"] ⟨["a"], []⟩ "cands" "goal" "first" "wc").2 "other" ?_
  intro v hv
  have hv2 : ("other", v) ∈
      [("chosen_a", PyVal.vint 1),
       ("reason", PyVal.vstr "Fallback: No API key. Selected first candidate"),
       ("request", PyVal.vstr (jsonOfVal (fallbackRequestVal [[("a", PyVal.vint 1)]] "first")))] := hv
  simp only [List.mem_cons, List.not_mem_nil, or_false, Prod.mk.injEq] at hv2
  rcases hv2 with ⟨h, -⟩ | ⟨h, -⟩ | ⟨h, -⟩
  · exact absurd h (by decide)
  · exact absurd h (by decide)
  · exact absurd h (by decide)

/-- Under selection and mapping safety, the fallback path completes
without an exception. -/
lemma applyFallback_safe (cands : List Dict) (cols : List (String × String))
    (strat : String) (hne : cands ≠ []) (hsafe : selectionSafe cands strat)
    (hclean : mappingClean cands cols) :
    (applyFallback cands cols strat).2 = Option.none := by
  obtain ⟨c, r, hsel, hcmem⟩ := fallbackSelect_safe_ok cands strat hne hsafe
  rcases applyFallback_cases cands cols strat hne with
    ⟨e, hsel2, happ⟩ | ⟨c2, r2, e, hsel2, hcm2, hmr2, happ⟩ | ⟨c2, r2, hsel2, hcm2, hmr2, happ⟩
  · rw [hsel] at hsel2
    cases hsel2
  · rw [hclean c2 hcm2] at hmr2
    cases hmr2
  · rw [happ]

/-- C1 (counterexample): with the credential absent, a non-empty
candidate sequence, and the `min:unit_cost` fallback, a candidate record
whose `unit_cost` is null makes the fallback's `min(...)` comparison
raise `TypeError`, which propagates to the caller — the fallback call
site is outside any handler.  This refutes the claim that
`compute_ai_value` returns normally for every candidate record contents
including null fallback fields. -/
theorem c1_counterexample :
    compute_ai_value false (.error ())
      [("cands", .vlist [.obj [("unit_cost", .none)],
        .obj [("unit_cost", .vfloat (mkRat 19 2))]])]
      ["chosen_unit_cost"] ⟨["unit_cost"], []⟩ "cands" "lowest cost"
      "min:unit_cost" "normal operations" = ([], some .typeError) := rfl

/-- C1 (amended): `compute_ai_value` returns normally — no exception
reaches the caller — for any combination of credential present/absent,
external call succeeding/throwing/returning malformed JSON, and empty or
non-empty candidates, provided that (a) under a `min:`/`max:` strategy
every candidate's present strategy-field value is numeric, and (b) no
candidate's field mapping raises during coercion. -/
theorem c1_no_exception_amended
    (hasApiKey : Bool) (response : Except Unit PyVal) (rowAttrs : Dict)
    (rowColumns : List String) (schema : Schema)
    (candidatesPath optimizeFor fallback worldConditions : String)
    (hsafe : selectionSafe
      (serializeCandidates schema (getCandidates (.obj rowAttrs) candidatesPath))
      fallback)
    (hclean : mappingClean
      (serializeCandidates schema (getCandidates (.obj rowAttrs) candidatesPath))
      (getResultColumns rowColumns)) :
    (compute_ai_value hasApiKey response rowAttrs rowColumns schema candidatesPath
      optimizeFor fallback worldConditions).2 = Option.none := by
  by_cases hemp : (getCandidates (.obj rowAttrs) candidatesPath).isEmpty = true
  · simp [compute_ai_value, hemp]
  · have hemp2 : (getCandidates (.obj rowAttrs) candidatesPath).isEmpty = false :=
      Bool.eq_false_iff.mpr hemp
    have hserne : serializeCandidates schema
        (getCandidates (.obj rowAttrs) candidatesPath) ≠ [] := by
      simp only [serializeCandidates, hemp2, Bool.false_eq_true, if_false]
      intro hmap
      have hlen := congrArg List.length hmap
      simp only [List.length_map, List.length_nil] at hlen
      have hnil : getCandidates (.obj rowAttrs) candidatesPath = [] :=
        List.length_eq_zero.mp hlen
      rw [hnil] at hemp2
      cases hemp2
    simp only [compute_ai_value, hemp2, Bool.false_eq_true, if_false]
    cases hkey : hasApiKey with
    | false =>
      simp only [Bool.not_false, if_true]
      exact applyFallback_safe _ _ _ hserne hsafe hclean
    | true =>
      simp only [Bool.not_true, Bool.false_eq_true, if_false]
      rcases callOpenai_cases response
          (serializeCandidates schema (getCandidates (.obj rowAttrs) candidatesPath))
          (getResultColumns rowColumns) optimizeFor worldConditions with
        ⟨e, happ⟩ | ⟨c, e, hcm, hmr, happ⟩ | ⟨c, rv, hcm, hmr, happ⟩
      · rw [happ]
        cases haf : applyFallback
            (serializeCandidates schema (getCandidates (.obj rowAttrs) candidatesPath))
            (getResultColumns rowColumns) fallback with
        | mk ws2 e2 =>
          have he2 : e2 = Option.none := by
            have h0 := applyFallback_safe _ _ fallback hserne hsafe hclean
            rw [haf] at h0
            exact h0
          subst he2
          simp [haf]
      · rw [hclean c hcm] at hmr
        cases hmr
      · rw [happ]

/-- Witness for C1 (amended) at a concrete input with numeric fallback
fields: the call returns normally. -/
theorem c1_no_exception_amended_witness :
    (compute_ai_value false (.error ())
      [("cands", .vlist [.obj [("unit_cost", .vfloat 12)],
        .obj [("unit_cost", .vfloat (mkRat 19 2))]])]
      ["chosen_unit_cost"] ⟨["unit_cost"], []⟩ "cands" "lowest cost"
      "min:unit_cost" "normal operations").2 = Option.none := by
  refine c1_no_exception_amended false (.error ())
    [("cands", .vlist [.obj [("unit_cost", .vfloat 12)],
      .obj [("unit_cost", .vfloat (mkRat 19 2))]])]
    ["chosen_unit_cost"] ⟨["unit_cost"], []⟩ "cands" "lowest cost"
    "min:unit_cost" "normal operations" ?_ ?_
  · intro hdisj c hc v hv
    have hc2 : c ∈ ([[("unit_cost", PyVal.vfloat 12)],
        [("unit_cost", PyVal.vfloat (mkRat 19 2))]] : List Dict) := hc
    simp only [List.mem_cons, List.not_mem_nil, or_false] at hc2
    rcases hc2 with rfl | rfl
    · have h2 : some (PyVal.vfloat 12) = some v := hv
      rw [← Option.some.inj h2]
      rfl
    · have h2 : some (PyVal.vfloat (mkRat 19 2)) = some v := hv
      rw [← Option.some.inj h2]
      rfl
  · intro c hc
    have hc2 : c ∈ ([[("unit_cost", PyVal.vfloat 12)],
        [("unit_cost", PyVal.vfloat (mkRat 19 2))]] : List Dict) := hc
    simp only [List.mem_cons, List.not_mem_nil, or_false] at hc2
    rcases hc2 with rfl | rfl
    · rfl
    · rfl

/-- The `reason`/`request` writes never hit `chosen_*` fields. -/
lemma chosenWrites_reason_request (rv rq : PyVal) :
    chosenWrites [("reason", rv), ("request", rq)] = [] := rfl

/-- The field mapper's writes are all `chosen_*` writes when the columns
come from the schema introspector. -/
lemma chosenWrites_mapResultFields (c : Dict) (rowColumns : List String) :
    chosenWrites (mapResultFields c (getResultColumns rowColumns)).1 =
      (mapResultFields c (getResultColumns rowColumns)).1 := by
  apply chosenWrites_eq_self
  intro w hw
  obtain ⟨tf, htf⟩ := mapResultFields_key_sub c (getResultColumns rowColumns) w hw
  exact getResultColumns_startsWith rowColumns w.1 tf htf

/-- The fallback's `chosen_*` writes are empty or one member's mapping. -/
lemma applyFallback_chosenWrites (cands : List Dict) (rowColumns : List String)
    (strat : String) :
    chosenWrites (applyFallback cands (getResultColumns rowColumns) strat).1 = [] ∨
    ∃ c, c ∈ cands ∧
      chosenWrites (applyFallback cands (getResultColumns rowColumns) strat).1 =
        (mapResultFields c (getResultColumns rowColumns)).1 := by
  by_cases hne : cands = []
  · subst hne
    left
    rfl
  · rcases applyFallback_cases cands (getResultColumns rowColumns) strat hne with
      ⟨e, hsel, happ⟩ | ⟨c, r0, e, hsel, hcm, hmr, happ⟩ | ⟨c, r0, hsel, hcm, hmr, happ⟩
    · left
      rw [happ]
      rfl
    · right
      refine ⟨c, hcm, ?_⟩
      rw [happ]
      exact chosenWrites_mapResultFields c rowColumns
    · right
      refine ⟨c, hcm, ?_⟩
      rw [happ]
      calc chosenWrites ((mapResultFields c (getResultColumns rowColumns)).1 ++
            [("reason", .vstr r0),
             ("request", .vstr (jsonOfVal (fallbackRequestVal cands strat)))])
          = chosenWrites (mapResultFields c (getResultColumns rowColumns)).1 ++
            chosenWrites [("reason", .vstr r0),
              ("request", .vstr (jsonOfVal (fallbackRequestVal cands strat)))] :=
            chosenWrites_append _ _
        _ = (mapResultFields c (getResultColumns rowColumns)).1 ++ [] := by
            rw [chosenWrites_mapResultFields, chosenWrites_reason_request]
        _ = (mapResultFields c (getResultColumns rowColumns)).1 := List.append_nil _

/-- The AI path's `chosen_*` writes are empty or one member's mapping. -/
lemma callOpenai_chosenWrites (resp : Except Unit PyVal) (cands : List Dict)
    (rowColumns : List String) (og wc : String) :
    chosenWrites (callOpenai resp cands (getResultColumns rowColumns) og wc).1 = [] ∨
    ∃ c, c ∈ cands ∧
      chosenWrites (callOpenai resp cands (getResultColumns rowColumns) og wc).1 =
        (mapResultFields c (getResultColumns rowColumns)).1 := by
  rcases callOpenai_cases resp cands (getResultColumns rowColumns) og wc with
    ⟨e, happ⟩ | ⟨c, e, hcm, hmr, happ⟩ | ⟨c, rv, hcm, hmr, happ⟩
  · left
    rw [happ]
    rfl
  · right
    refine ⟨c, hcm, ?_⟩
    rw [happ]
    exact chosenWrites_mapResultFields c rowColumns
  · right
    refine ⟨c, hcm, ?_⟩
    rw [happ]
    calc chosenWrites ((mapResultFields c (getResultColumns rowColumns)).1 ++
          [("reason", rv),
           ("request", .vstr (jsonOfVal (openaiRequestVal wc cands og)))])
        = chosenWrites (mapResultFields c (getResultColumns rowColumns)).1 ++
          chosenWrites [("reason", rv),
            ("request", .vstr (jsonOfVal (openaiRequestVal wc cands og)))] :=
          chosenWrites_append _ _
      _ = (mapResultFields c (getResultColumns rowColumns)).1 ++ [] := by
          rw [chosenWrites_mapResultFields, chosenWrites_reason_request]
      _ = (mapResultFields c (getResultColumns rowColumns)).1 := List.append_nil _

/-- C2 (counterexample): a call can end in a terminal state — returning
normally — whose `chosen_*` fields mix two candidates.  Here the AI path
picks candidate 0, writes `chosen_a_id` from it, then raises coercing its
boolean `b_cost` into a Decimal; the handler falls back to
`min:priority`, which picks candidate 1 and writes `chosen_b_cost` from
it without overwriting `chosen_a_id` (candidate 1 has no `a_id`).  No
single serialized candidate's mapping equals the call's `chosen_*`
writes. -/
theorem c2_counterexample :
    (compute_ai_value true
      (.ok (.obj [("chosen_index", .vint 0), ("reason", .vstr "ai pick")]))
      [("cands", .vlist [.obj [("a_id", .vint 3), ("b_cost", .vbool true), ("priority", .vint 2)],
        .obj [("b_cost", .vfloat (mkRat 15 2)), ("priority", .vint 1)]])]
      ["chosen_a_id", "chosen_b_cost"] ⟨["a_id", "b_cost", "priority"], []⟩
      "cands" "goal" "min:priority" "normal operations").2 = Option.none ∧
    chosenWrites (compute_ai_value true
      (.ok (.obj [("chosen_index", .vint 0), ("reason", .vstr "ai pick")]))
      [("cands", .vlist [.obj [("a_id", .vint 3), ("b_cost", .vbool true), ("priority", .vint 2)],
        .obj [("b_cost", .vfloat (mkRat 15 2)), ("priority", .vint 1)]])]
      ["chosen_a_id", "chosen_b_cost"] ⟨["a_id", "b_cost", "priority"], []⟩
      "cands" "goal" "min:priority" "normal operations").1 =
      [("chosen_a_id", .vint 3), ("chosen_b_cost", .vdec (mkRat 15 2))] ∧
    ¬ ∃ c, c ∈ serializeCandidates (⟨["a_id", "b_cost", "priority"], []⟩ : Schema)
        (getCandidates
          (.obj [("cands", .vlist [.obj [("a_id", .vint 3), ("b_cost", .vbool true), ("priority", .vint 2)],
            .obj [("b_cost", .vfloat (mkRat 15 2)), ("priority", .vint 1)]])])
          "cands") ∧
      chosenWrites (compute_ai_value true
        (.ok (.obj [("chosen_index", .vint 0), ("reason", .vstr "ai pick")]))
        [("cands", .vlist [.obj [("a_id", .vint 3), ("b_cost", .vbool true), ("priority", .vint 2)],
          .obj [("b_cost", .vfloat (mkRat 15 2)), ("priority", .vint 1)]])]
        ["chosen_a_id", "chosen_b_cost"] ⟨["a_id", "b_cost", "priority"], []⟩
        "cands" "goal" "min:priority" "normal operations").1 =
        (mapResultFields c (getResultColumns ["chosen_a_id", "chosen_b_cost"])).1 := by
  refine ⟨rfl, rfl, ?_⟩
  rintro ⟨c, hc, heq⟩
  have hc2 : c ∈ ([[("a_id", PyVal.vint 3), ("b_cost", PyVal.vbool true), ("priority", PyVal.vint 2)],
      [("a_id", PyVal.none), ("b_cost", PyVal.vfloat (mkRat 15 2)), ("priority", PyVal.vint 1)]] :
      List Dict) := hc
  simp only [List.mem_cons, List.not_mem_nil, or_false] at hc2
  rcases hc2 with rfl | rfl
  · have h2 : ([("chosen_a_id", PyVal.vint 3), ("chosen_b_cost", PyVal.vdec (mkRat 15 2))] :
        List (String × PyVal)) = [("chosen_a_id", PyVal.vint 3)] := heq
    simp at h2
  · have h2 : ([("chosen_a_id", PyVal.vint 3), ("chosen_b_cost", PyVal.vdec (mkRat 15 2))] :
        List (String × PyVal)) = [("chosen_b_cost", PyVal.vdec (mkRat 15 2))] := heq
    simp at h2

/-- C2 (amended): provided no candidate's field mapping raises mid-way
(which would let the fallback interleave a second candidate's writes over
the AI path's partial writes), the `chosen_*` fields written by a call
come from at most one candidate: either none are touched, or they are
exactly one serialized candidate's mapping. -/
theorem c2_single_candidate_amended
    (hasApiKey : Bool) (response : Except Unit PyVal) (rowAttrs : Dict)
    (rowColumns : List String) (schema : Schema)
    (candidatesPath optimizeFor fallback worldConditions : String)
    (hclean : mappingClean
      (serializeCandidates schema (getCandidates (.obj rowAttrs) candidatesPath))
      (getResultColumns rowColumns)) :
    chosenWrites (compute_ai_value hasApiKey response rowAttrs rowColumns schema
      candidatesPath optimizeFor fallback worldConditions).1 = [] ∨
    ∃ c, c ∈ serializeCandidates schema (getCandidates (.obj rowAttrs) candidatesPath) ∧
      chosenWrites (compute_ai_value hasApiKey response rowAttrs rowColumns schema
        candidatesPath optimizeFor fallback worldConditions).1 =
        (mapResultFields c (getResultColumns rowColumns)).1 := by
  by_cases hemp : (getCandidates (.obj rowAttrs) candidatesPath).isEmpty = true
  · left
    simp only [compute_ai_value, hemp, if_true]
    rfl
  · have hemp2 : (getCandidates (.obj rowAttrs) candidatesPath).isEmpty = false :=
      Bool.eq_false_iff.mpr hemp
    simp only [compute_ai_value, hemp2, Bool.false_eq_true, if_false]
    cases hkey : hasApiKey with
    | false =>
      simp only [Bool.not_false, if_true]
      exact applyFallback_chosenWrites _ rowColumns fallback
    | true =>
      simp only [Bool.not_true, Bool.false_eq_true, if_false]
      rcases callOpenai_cases response
          (serializeCandidates schema (getCandidates (.obj rowAttrs) candidatesPath))
          (getResultColumns rowColumns) optimizeFor worldConditions with
        ⟨e, happ⟩ | ⟨c, e, hcm, hmr, happ⟩ | ⟨c, rv, hcm, hmr, happ⟩
      · rw [happ]
        cases haf : applyFallback
            (serializeCandidates schema (getCandidates (.obj rowAttrs) candidatesPath))
            (getResultColumns rowColumns) fallback with
        | mk ws2 e2 =>
          have hfb := applyFallback_chosenWrites
            (serializeCandidates schema (getCandidates (.obj rowAttrs) candidatesPath))
            rowColumns fallback
          rw [haf] at hfb
          simp only [List.nil_append]
          exact hfb
      · rw [hclean c hcm] at hmr
        cases hmr
      · rw [happ]
        right
        refine ⟨c, hcm, ?_⟩
        calc chosenWrites ((mapResultFields c (getResultColumns rowColumns)).1 ++
              [("reason", rv),
               ("request", .vstr (jsonOfVal (openaiRequestVal worldConditions
                 (serializeCandidates schema (getCandidates (.obj rowAttrs) candidatesPath))
                 optimizeFor)))])
            = chosenWrites (mapResultFields c (getResultColumns rowColumns)).1 ++
              chosenWrites [("reason", rv),
                ("request", .vstr (jsonOfVal (openaiRequestVal worldConditions
                  (serializeCandidates schema (getCandidates (.obj rowAttrs) candidatesPath))
                  optimizeFor)))] := chosenWrites_append _ _
          _ = (mapResultFields c (getResultColumns rowColumns)).1 ++ [] := by
              rw [chosenWrites_mapResultFields, chosenWrites_reason_request]
          _ = (mapResultFields c (getResultColumns rowColumns)).1 := List.append_nil _

/-- Witness for C2 (amended): a concrete clean call whose `chosen_*`
writes are exactly one candidate's mapping. -/
theorem c2_single_candidate_amended_witness :
    chosenWrites (compute_ai_value true
      (.ok (.obj [("chosen_index", .vint 0), ("reason", .vstr "ok")]))
      [("cands", .vlist [.obj [("a", .vint 1)]])]
      ["chosen_a"] ⟨["a"], []⟩ "cands" "goal" "first" "wc").1 = [] ∨
    ∃ c, c ∈ serializeCandidates (⟨["a"], []⟩ : Schema)
        (getCandidates (.obj [("cands", .vlist [.obj [("a", .vint 1)]])]) "cands") ∧
      chosenWrites (compute_ai_value true
        (.ok (.obj [("chosen_index", .vint 0), ("reason", .vstr "ok")]))
        [("cands", .vlist [.obj [("a", .vint 1)]])]
        ["chosen_a"] ⟨["a"], []⟩ "cands" "goal" "first" "wc").1 =
        (mapResultFields c (getResultColumns ["chosen_a"])).1 := by
  refine c2_single_candidate_amended true
    (.ok (.obj [("chosen_index", .vint 0), ("reason", .vstr "ok")]))
    [("cands", .vlist [.obj [("a", .vint 1)]])]
    ["chosen_a"] (⟨["a"], []⟩ : Schema) "cands" "goal" "first" "wc" ?_
  intro c hc
  have hc2 : c ∈ ([[("a", PyVal.vint 1)]] : List Dict) := hc
  simp only [List.mem_cons, List.not_mem_nil, or_false] at hc2
  rcases hc2 with rfl
  rfl

end AiValue
